import Mathlib

/-!
Verification development for the LimbusCompanyLLMTranslator incremental
translation pipeline.  The Python source under `src/` is shallowly embedded
as executable Lean functions: JSON documents become the inductive `Json`,
Python dicts become association lists (Python 3 dicts are insertion-ordered,
which association lists model exactly), and the pipeline's stateful loops
become folds / structural recursions.  Exceptions raised by the source are
modelled with `Option` (`none` = the source raises).  Names follow the
Python source (`find_new_content`, `merge_datalists`, `apply_terminology`,
`process_batch`, ...).
-/

set_option maxHeartbeats 1000000

/-- A JSON value as produced by `json.loads`.  Numbers are modelled as
integers (the game data uses integer ids; floating point is irrelevant to
every function verified here).  Objects are insertion-ordered key/value
lists, exactly like Python 3 dicts. -/
inductive Json where
  | null : Json
  | bool : Bool → Json
  | num : Int → Json
  | str : String → Json
  | arr : List Json → Json
  | obj : List (String × Json) → Json

mutual

/-- Structural equality of JSON values (Python `==` on parsed JSON). -/
def Json.beq : Json → Json → Bool
  | .null, .null => true
  | .bool a, .bool b => a == b
  | .num a, .num b => a == b
  | .str a, .str b => a == b
  | .arr xs, .arr ys => Json.beqList xs ys
  | .obj fs, .obj gs => Json.beqObj fs gs
  | _, _ => false

def Json.beqList : List Json → List Json → Bool
  | [], [] => true
  | x :: xs, y :: ys => Json.beq x y && Json.beqList xs ys
  | _, _ => false

def Json.beqObj : List (String × Json) → List (String × Json) → Bool
  | [], [] => true
  | (k, v) :: fs, (l, w) :: gs => k == l && Json.beq v w && Json.beqObj fs gs
  | _, _ => false

end

mutual

theorem Json.beq_iff : ∀ a b, Json.beq a b = true ↔ a = b
  | .null, .null => by simp [Json.beq]
  | .null, .bool _ => by simp [Json.beq]
  | .null, .num _ => by simp [Json.beq]
  | .null, .str _ => by simp [Json.beq]
  | .null, .arr _ => by simp [Json.beq]
  | .null, .obj _ => by simp [Json.beq]
  | .bool _, .null => by simp [Json.beq]
  | .bool a, .bool b => by simp [Json.beq]
  | .bool _, .num _ => by simp [Json.beq]
  | .bool _, .str _ => by simp [Json.beq]
  | .bool _, .arr _ => by simp [Json.beq]
  | .bool _, .obj _ => by simp [Json.beq]
  | .num _, .null => by simp [Json.beq]
  | .num _, .bool _ => by simp [Json.beq]
  | .num a, .num b => by simp [Json.beq]
  | .num _, .str _ => by simp [Json.beq]
  | .num _, .arr _ => by simp [Json.beq]
  | .num _, .obj _ => by simp [Json.beq]
  | .str _, .null => by simp [Json.beq]
  | .str _, .bool _ => by simp [Json.beq]
  | .str _, .num _ => by simp [Json.beq]
  | .str a, .str b => by simp [Json.beq]
  | .str _, .arr _ => by simp [Json.beq]
  | .str _, .obj _ => by simp [Json.beq]
  | .arr _, .null => by simp [Json.beq]
  | .arr _, .bool _ => by simp [Json.beq]
  | .arr _, .num _ => by simp [Json.beq]
  | .arr _, .str _ => by simp [Json.beq]
  | .arr xs, .arr ys => by
      have h := Json.beqList_iff xs ys
      simp [Json.beq, h]
  | .arr _, .obj _ => by simp [Json.beq]
  | .obj _, .null => by simp [Json.beq]
  | .obj _, .bool _ => by simp [Json.beq]
  | .obj _, .num _ => by simp [Json.beq]
  | .obj _, .str _ => by simp [Json.beq]
  | .obj _, .arr _ => by simp [Json.beq]
  | .obj fs, .obj gs => by
      have h := Json.beqObj_iff fs gs
      simp [Json.beq, h]

theorem Json.beqList_iff : ∀ xs ys, Json.beqList xs ys = true ↔ xs = ys
  | [], [] => by simp [Json.beqList]
  | [], _ :: _ => by simp [Json.beqList]
  | _ :: _, [] => by simp [Json.beqList]
  | x :: xs, y :: ys => by
      have h1 := Json.beq_iff x y
      have h2 := Json.beqList_iff xs ys
      simp [Json.beqList, h1, h2]

theorem Json.beqObj_iff : ∀ fs gs, Json.beqObj fs gs = true ↔ fs = gs
  | [], [] => by simp [Json.beqObj]
  | [], _ :: _ => by simp [Json.beqObj]
  | _ :: _, [] => by simp [Json.beqObj]
  | (k, v) :: fs, (l, w) :: gs => by
      have h1 := Json.beq_iff v w
      have h2 := Json.beqObj_iff fs gs
      simp [Json.beqObj, h1, h2, Prod.ext_iff]

end

instance : DecidableEq Json :=
  fun a b => decidable_of_iff (Json.beq a b = true) (Json.beq_iff a b)

/-- Python dict lookup `m.get(k)` on an insertion-ordered assoc list
(dict keys are unique, so first-match lookup is dict lookup). -/
def dictLookup {α β : Type} [BEq α] : List (α × β) → α → Option β
  | [], _ => none
  | p :: rest, k => if p.1 == k then some p.2 else dictLookup rest k

/-- Python dict assignment `m[k] = v`: overwrite in place when the key is
present, append otherwise. -/
def dictInsert {α β : Type} [BEq α] : List (α × β) → α → β → List (α × β)
  | [], k, v => [(k, v)]
  | p :: rest, k, v => if p.1 == k then (k, v) :: rest else p :: dictInsert rest k v

/-!
## Kernel-computable string primitives

Python string methods used by the source (`lower`, `endswith`,
`startswith`, `strip`, `split`, single-character `replace`, `join`) are
embedded as structural recursions over the character list, so every
theorem below can be evaluated by the kernel.
-/

/-- Python `str.lower()` (ASCII; see the terminology section note). -/
def pyLower (s : String) : String :=
  String.mk (s.toList.map Char.toLower)

/-- Python `s.endswith(suffix)`. -/
def pyEndsWith (s suffix : String) : Bool :=
  suffix.toList.isSuffixOf s.toList

/-- Python `s.startswith(prefix)` on character lists. -/
def listStartsWith (pre s : List Char) : Bool :=
  pre.isPrefixOf s

/-- Python `str.strip()`: drop leading and trailing whitespace. -/
def pyStrip (s : String) : String :=
  String.mk (((s.toList.dropWhile Char.isWhitespace).reverse.dropWhile
    Char.isWhitespace).reverse)

/-- Python `s.split(sep)` for a one-character separator (keeps empty
fields, like Python). -/
def splitOnCharAux (sep : Char) : List Char → List Char → List String
  | [], cur => [String.mk cur.reverse]
  | c :: cs, cur =>
    if c == sep then String.mk cur.reverse :: splitOnCharAux sep cs []
    else splitOnCharAux sep cs (c :: cur)

def splitOnChar (sep : Char) (s : String) : List String :=
  splitOnCharAux sep s.toList []

/-- Python `sep.join(parts)`. -/
def joinWith (sep : String) : List String → String
  | [] => ""
  | [x] => x
  | x :: y :: rest => x ++ sep ++ joinWith sep (y :: rest)

/-- Python `s.replace('/', chr(92))` (single-character replacement). -/
def replaceSlashes (s : String) : String :=
  String.mk (s.toList.map (fun c => if c == '/' then '\\' else c))

/-- Python truthiness of a JSON value (`not content` in the source). -/
def Json.isFalsy : Json → Bool
  | .null => true
  | .bool b => !b
  | .num n => n == 0
  | .str s => s.isEmpty
  | .arr xs => xs.isEmpty
  | .obj fs => fs.isEmpty

/-!
## `src/core/utils.py` — `FileUtils.modify_filename`
-/

/-- Fuel-indexed prefix stripper; each removed prefix shortens the string,
so fuel = length always suffices. -/
def stripLangPrefixes : Nat → List Char → List Char
  | 0, s => s
  | n + 1, s =>
    if listStartsWith "KR_".toList s then stripLangPrefixes n (s.drop 3)
    else if listStartsWith "JP_".toList s then stripLangPrefixes n (s.drop 3)
    else if listStartsWith "EN_".toList s then stripLangPrefixes n (s.drop 3)
    else s

/-- `FileUtils.modify_filename`: repeatedly strip the known language
prefixes `KR_`, `JP_`, `EN_` from the front of a filename. -/
def modify_filename (filename : String) : String :=
  String.mk (stripLangPrefixes filename.length filename.toList)

/-!
## `src/core/extractor.py` — `TextExtractor`

`extract_files_content` walks a directory; the walk itself is I/O, so the
embedding takes the walked files (relative directory, filename, and the
result of `json.loads`, `none` on `JSONDecodeError`) as input and performs
the pure part: the `.json` filter, filename normalisation, id construction
and map building.
-/

/-- One entry of the record map built by `extract_files_content`
(the `full_path` field of the source is I/O bookkeeping and is not used by
any diffing logic, so it is omitted). -/
structure RecordFile where
  filename : String
  content : Option Json
deriving DecidableEq

/-- One file met by the `os.walk` loop: the directory path relative to the
language root (`"."` for the root itself), the bare filename, and the
parse result (`none` models a `json.JSONDecodeError`). -/
structure WalkedFile where
  rel_path : String
  filename : String
  parsed : Option Json
deriving DecidableEq

/-- Record-id construction from `extract_files_content`: the prefix-stripped
filename, composed with the relative directory path, separators normalised
to backslashes (`os.path.join(...).replace('/', '\\')`). -/
def fileIdOf (rel_path modified : String) : String :=
  if rel_path == "." then modified
  else replaceSlashes (rel_path ++ "/" ++ modified)

/-- The per-file body of the `os.walk` loop of `extract_files_content`:
skip non-`.json` files, otherwise store the record under its id. -/
def extractFileStep (acc : List (String × RecordFile)) (wf : WalkedFile) :
    List (String × RecordFile) :=
  if !(pyEndsWith (pyLower wf.filename) ".json") then acc
  else
    dictInsert acc (fileIdOf wf.rel_path (modify_filename wf.filename))
      { filename := modify_filename wf.filename, content := wf.parsed }

/-- The pure core of `TextExtractor.extract_files_content`: keep `.json`
files (case-insensitively), normalise filenames, build ids, and store the
parse result — `none` (a failed parse) is stored like any other content,
never raised. -/
def extract_files_content (files : List WalkedFile) : List (String × RecordFile) :=
  files.foldl extractFileStep []

/-- `"id" in item and item["id"] is not None`, for a dataList item.
Items are JSON objects in every record the pipeline processes; on a
non-object the source's `in` test degenerates (or raises), and this
embedding treats such items as id-less. -/
def itemIdOf : Json → Option Json
  | .obj fs =>
    match dictLookup fs "id" with
    | some .null => none
    | some v => some v
    | none => none
  | _ => none

/-- The set of non-null ids of a dataList (`existing_ids` in the source;
Python uses a `set`, of which only membership is observed). -/
def collectIds (items : List Json) : List Json :=
  items.filterMap itemIdOf

/-- One record of the delta list returned by `find_new_content`
(`origin_file.copy()` plus the injected `rel_path` key). -/
structure DeltaRecord where
  rel_path : String
  filename : String
  content : Option Json
deriving DecidableEq

/-- The loop body of `find_new_content` for a single origin record:
`none` = the record contributes nothing (`continue`), `some` = the record
appended to the result. -/
def findNewRecord (existing : List (String × RecordFile)) (file_id : String)
    (origin_file : RecordFile) : Option DeltaRecord :=
  match origin_file.content with
  | none => none
  | some c =>
    if c.isFalsy then none
    else
      match dictLookup existing file_id with
      | none => some { rel_path := file_id, filename := origin_file.filename, content := some c }
      | some existing_file =>
        match existing_file.content with
        | none => some { rel_path := file_id, filename := origin_file.filename, content := some c }
        | some ec =>
          match c, ec with
          | .obj ofs, .obj efs =>
            match dictLookup ofs "dataList", dictLookup efs "dataList" with
            | some (.arr origin_data_list), some (.arr existing_data_list) =>
              if origin_data_list.length == existing_data_list.length then none
              else
                let existing_ids := collectIds existing_data_list
                let new_items := origin_data_list.filter (fun item =>
                  match itemIdOf item with
                  | some v => !(existing_ids.contains v)
                  | none => false)
                if new_items.isEmpty then none
                else some { rel_path := file_id, filename := origin_file.filename,
                            content := some (.obj (dictInsert ofs "dataList" (.arr new_items))) }
            | _, _ => none
          | _, _ => none

/-- `TextExtractor.find_new_content`: iterate the origin map in insertion
order, emitting a delta record per origin record according to
`findNewRecord`.  (In the length-equal / missing-`dataList` cases the loop
`continue`s; a record whose filtered item list is empty is not emitted.) -/
def find_new_content (origin existing : List (String × RecordFile)) : List DeltaRecord :=
  origin.filterMap (fun p => findNewRecord existing p.1 p.2)

/-!
## `src/core/writer.py` — `FileWriter.merge_datalists`
-/

/-- The `for source_item in source_list` loop of `merge_datalists`,
carrying the accumulated target list and the running `target_ids` set. -/
def mergeAux : List Json → List Json → List Json → List Json
  | acc, _, [] => acc
  | acc, ids, item :: rest =>
    match itemIdOf item with
    | some v =>
      if ids.contains v then mergeAux acc ids rest
      else mergeAux (acc ++ [item]) (ids ++ [v]) rest
    | none => mergeAux (acc ++ [item]) ids rest

/-- `FileWriter.merge_datalists`: append each source item to the target
list unless its non-null id is already present; items without an id are
always appended.  (The source mutates `target_list` in place and returns
it; the embedding is the functional equivalent.) -/
def merge_datalists (target_list source_list : List Json) : List Json :=
  mergeAux target_list (collectIds target_list) source_list

/-!
## `src/core/translator.py` — `Translator.apply_terminology`

The source compiles the glossary into one combined regular expression
`(?<!\w)term1(?!\w)|(?<!\w)term2(?!\w)|...` (terms sorted longest-first),
case-insensitive, and substitutes every match via `term_map`.  The
embedding implements exactly the semantics of `re.sub` on that pattern: a
left-to-right scan; at each position the alternatives are tried in order;
a term matches when it matches the text case-insensitively and both
boundary guards hold; the replacement is looked up by the lower-cased
matched span.  (`\w` and lower-casing are modelled on ASCII; the regex
module additionally treats non-ASCII letters as word characters, which no
theorem below depends on.  A glossary with an empty-string term would make
`re.sub` insert replacements at every boundary; such degenerate glossaries
are skipped per-alternative here and are used by no theorem.)
-/

/-- Regex `\w` (ASCII fragment): letters, digits, underscore. -/
def isWordChar (c : Char) : Bool := c.isAlphanum || c == '_'

/-- The negative lookbehind `(?<!\w)`: no preceding character, or a
preceding non-word character. -/
def lookbehindOk : Option Char → Bool
  | none => true
  | some c => !(isWordChar c)

/-- The negative lookahead `(?!\w)` at the position after the match. -/
def lookaheadOk : List Char → Bool
  | [] => true
  | c :: _ => !(isWordChar c)

/-- Case-insensitive literal prefix match; returns the matched span of the
original text and the remainder. -/
def ciStripLC : List Char → List Char → Option (List Char × List Char)
  | [], s => some ([], s)
  | _ :: _, [] => none
  | t :: ts, c :: cs =>
    if t.toLower == c.toLower then
      (ciStripLC ts cs).map (fun p => (c :: p.1, p.2))
    else none

/-- Try the pattern alternatives (one per glossary term, in sorted order)
at the current position. -/
def firstTermMatch (sorted_terms : List (String × String)) (prev : Option Char)
    (s : List Char) : Option (List Char × List Char) :=
  match sorted_terms with
  | [] => none
  | (src, _) :: rest =>
    if src.isEmpty then firstTermMatch rest prev s
    else
      match ciStripLC src.toList s with
      | some (matched, after) =>
        if lookbehindOk prev && lookaheadOk after then some (matched, after)
        else firstTermMatch rest prev s
      | none => firstTermMatch rest prev s

/-- The `re.sub` scan.  Fuel decreases on every consumed character, so
fuel = input length always suffices (every accepted match is non-empty). -/
def regexSubAux (sorted_terms term_map : List (String × String)) :
    Nat → Option Char → List Char → List Char
  | 0, _, s => s
  | _ + 1, _, [] => []
  | fuel + 1, prev, c :: cs =>
    match firstTermMatch sorted_terms prev (c :: cs) with
    | some (matched, after) =>
      let matchedStr := String.mk matched
      let repl := (dictLookup term_map (pyLower matchedStr)).getD matchedStr
      repl.toList ++ regexSubAux sorted_terms term_map fuel matched.getLast? after
    | none => c :: regexSubAux sorted_terms term_map fuel (some c) cs

/-- Stable insertion by strictly longer source term first — equal lengths
keep their original relative order, matching Python's stable
`sorted(key=len(source), reverse=True)`. -/
def insertByLenDesc (x : String × String) : List (String × String) → List (String × String)
  | [] => [x]
  | y :: ys => if x.1.length < y.1.length then y :: insertByLenDesc x ys else x :: y :: ys

/-- `sorted(self.terminology.items(), key=..., reverse=True)`. -/
def sortByLenDesc (terms : List (String × String)) : List (String × String) :=
  terms.foldr insertByLenDesc []

/-- `term_map[source.lower()] = target`, built in sorted order. -/
def buildTermMap (sorted_terms : List (String × String)) : List (String × String) :=
  sorted_terms.foldl (fun m p => dictInsert m (pyLower p.1) p.2) []

/-- `Translator.apply_terminology`: returns the substituted text and
whether anything changed.  (The source also caches the compiled pattern;
the cache is semantically transparent and not modelled.) -/
def apply_terminology (terminology : List (String × String)) (text : String) : String × Bool :=
  if text.isEmpty then (text, false)
  else if terminology.isEmpty then (text, false)
  else
    let sorted_terms := sortByLenDesc terminology
    let term_map := buildTermMap sorted_terms
    let cs := text.toList
    let new_result := String.mk (regexSubAux sorted_terms term_map cs.length none cs)
    (new_result, new_result != text)

/-!
## `src/core/translator.py` — `Translator.translate_batch_of_texts`

Compose side: the batch texts are numbered from 1 and each is terminated
by the sentinel line.  Parse side: the response is stripped, any
`<thinking>...</thinking>` regions are removed, and the numbered-list
reply is parsed line by line.  The HTTP POST with retries is abstracted as
a `backend` function from the composed user message to the raw reply
(`none` models exhausting `max_retries`, after which the source
re-raises).
-/

/-- `f"{idx}. {text}\n---SPLITTER---\n"` accumulated over the batch,
numbering from `idx`. -/
def compose_numbered_aux : Nat → List String → String
  | _, [] => ""
  | idx, t :: ts =>
    toString idx ++ ". " ++ t ++ "\n---SPLITTER---\n" ++ compose_numbered_aux (idx + 1) ts

/-- The `formatted_texts` user message (`enumerate(batch_texts, 1)`). -/
def compose_numbered (batch_texts : List String) : String :=
  compose_numbered_aux 1 batch_texts

/-- First-occurrence split: `some (before, after)` around the first
occurrence of `pat`, `none` if absent. -/
def splitFirstCh (pat : List Char) : List Char → Option (List Char × List Char)
  | [] => if pat.isPrefixOf ([] : List Char) then some ([], []) else none
  | c :: cs =>
    if pat.isPrefixOf (c :: cs) then some ([], (c :: cs).drop pat.length)
    else (splitFirstCh pat cs).map (fun p => (c :: p.1, p.2))

/-- `re.sub(r'<thinking>.*?</thinking>', '', ..., flags=re.DOTALL)`:
repeatedly drop the region from the first `<thinking>` to the first
subsequent `</thinking>`.  Each round consumes text, so fuel = length
suffices. -/
def stripThinkingAux : Nat → List Char → List Char
  | 0, s => s
  | n + 1, s =>
    match splitFirstCh "<thinking>".toList s with
    | none => s
    | some (pre, post) =>
      match splitFirstCh "</thinking>".toList post with
      | none => s
      | some (_, rest) => pre ++ stripThinkingAux n rest

def stripThinking (s : String) : String :=
  String.mk (stripThinkingAux s.length s.toList)

/-- Longest digit prefix of a line (`(\d+)`, ASCII digits). -/
def spanDigits : List Char → List Char × List Char
  | [] => ([], [])
  | c :: cs =>
    if c.isDigit then
      let p := spanDigits cs
      (c :: p.1, p.2)
    else ([], c :: cs)

def digitsToNat (ds : List Char) : Nat :=
  ds.foldl (fun n c => n * 10 + (c.toNat - '0'.toNat)) 0

/-- The separator class `[\.\)）、\s]` of the numbered-line pattern. -/
def isNumSepChar (c : Char) : Bool :=
  c == '.' || c == ')' || c == '）' || c == '、' || c.isWhitespace

/-- `re.match(r'^(\d+)[\.\)）、\s]\s*(.+)?$', line)`: the captured number
and the optional rest-of-line capture.  (No separator character is a
digit, so the regex engine's backtracking never changes the greedy digit
span; `$` always succeeds because `(.+)` can absorb the remainder.) -/
def matchNumberedLine (line : String) : Option (Nat × Option String) :=
  match spanDigits line.toList with
  | ([], _) => none
  | (_ :: _, []) => none
  | (ds, c :: rest2) =>
    if isNumSepChar c then
      let rest3 := rest2.dropWhile (fun x => x.isWhitespace)
      some (digitsToNat ds, if rest3.isEmpty then none else some (String.mk rest3))
    else none

/-- Parser loop state: the open entry number (already 0-based), the
accumulated lines of the open entry, and the result map. -/
structure NumParseState where
  current_num : Option Int
  current_translation : List String
  api_translations : List (Int × String)
deriving DecidableEq

/-- `"\n".flatten(current_translation).strip()`. -/
def joinStrip (ls : List String) : String :=
  pyStrip (joinWith "\n" ls)

/-- The body of the `for line in lines` loop of
`translate_batch_of_texts`. -/
def parseLine (st : NumParseState) (rawLine : String) : NumParseState :=
  let line := pyStrip rawLine
  if line.isEmpty then st
  else if line == "---SPLITTER---" then
    match st.current_num, st.current_translation with
    | some n, t :: ts =>
      { current_num := none, current_translation := [],
        api_translations := dictInsert st.api_translations n (joinStrip (t :: ts)) }
    | _, _ => st
  else
    match matchNumberedLine line with
    | some (n, g2) =>
      let saved :=
        match st.current_num, st.current_translation with
        | some m, t :: ts => dictInsert st.api_translations m (joinStrip (t :: ts))
        | _, _ => st.api_translations
      { current_num := some ((n : Int) - 1),
        current_translation := match g2 with | some g => [pyStrip g] | none => [],
        api_translations := saved }
    | none =>
      match st.current_num with
      | some _ => { st with current_translation := st.current_translation ++ [line] }
      | none => st

/-- The line loop plus the final flush of a still-open entry. -/
def parse_numbered_response (s : String) : List (Int × String) :=
  let final := (splitOnChar '\n' s).foldl parseLine ⟨none, [], []⟩
  match final.current_num, final.current_translation with
  | some n, t :: ts => dictInsert final.api_translations n (joinStrip (t :: ts))
  | _, _ => final.api_translations

/-- Response handling of `translate_batch_of_texts`: strip the raw
content, remove thinking regions, parse the numbered list. -/
def parse_ai_response (content : String) : List (Int × String) :=
  parse_numbered_response (stripThinking (pyStrip content))

/-- `Translator.translate_batch_of_texts`, with the HTTP layer abstracted:
`backend` maps the composed user message to the raw reply content, `none`
modelling failure of every retry (the source then re-raises to the
caller).  The per-instance translation cache is semantically transparent
(the function is deterministic) and is not modelled. -/
def translate_batch_of_texts (backend : String → Option String)
    (batch_texts : List String) : Option (List (Int × String)) :=
  (backend (compose_numbered batch_texts)).map parse_ai_response

/-!
## `src/core/translator.py` — batching and concurrent dispatch

`batch_translate_with_multiple_strategies` groups tasks by the tuple of
policy parameters, pre-substitutes terminology per group, packs the texts
needing API translation into byte-budgeted batches, submits one future per
batch to a shared thread pool, and collects every future's `(results,
success)` pair into a result map keyed by global task index.  Every task
index is written at most once across all futures, so the collected map
does not depend on completion order; the embedding therefore applies each
group's writes sequentially, in submission order.  Task texts are strings
throughout the pipeline (they come from JSON string leaves), so the
source's `isinstance(text, str)` guards are represented by the empty-text
check alone.
-/

/-- The `strategy_key` tuple of `batch_translate_with_multiple_strategies`
(temperature is a rational stand-in for the Python float — only equality
of keys is ever observed). -/
structure StrategyKey where
  api_key : String
  base_url : String
  model : String
  temperature : Rat
  enable_thinking : Bool
  prompt_file : String
deriving DecidableEq

/-- One task dict as built by `LCLT.modify` / `optimized_translate`:
a text, the policy parameters, and the global task index. -/
structure TranslationTask where
  text : String
  strategy : StrategyKey
  index : Nat
deriving DecidableEq

/-- One value of the `strategy_groups` dict. -/
structure StrategyGroup where
  key : StrategyKey
  tasks : List TranslationTask
deriving DecidableEq

/-- Insert one task into the ordered group map (`strategy_groups` is a
Python dict keyed by the strategy tuple: append to the existing group, or
create a new group at the end). -/
def addTaskToGroups : List StrategyGroup → TranslationTask → List StrategyGroup
  | [], t => [{ key := t.strategy, tasks := [t] }]
  | g :: gs, t =>
    if g.key == t.strategy then { g with tasks := g.tasks ++ [t] } :: gs
    else g :: addTaskToGroups gs t

/-- The task-grouping loop of `batch_translate_with_multiple_strategies`. -/
def strategy_groups (tasks : List TranslationTask) : List StrategyGroup :=
  tasks.foldl addTaskToGroups []

/-- `total_workers = min(max_workers, total_tasks)` where `total_tasks`
sums the group sizes (source lines 312–313). -/
def total_workers (max_workers : Nat) (groups : List StrategyGroup) : Nat :=
  min max_workers ((groups.map (fun g => g.tasks.length)).sum)

/-- Per-group text list (`texts = [task["text"] for task in group_tasks]`). -/
def groupTexts (g : StrategyGroup) : List String :=
  g.tasks.map (fun t => t.text)

/-- Per-group index list (`indices = [task["index"] for task in group_tasks]`). -/
def groupIndices (g : StrategyGroup) : List Nat :=
  g.tasks.map (fun t => t.index)

/-- The pre-translation loop body: empty texts are kept as-is with
need-API flag `false`; all others get terminology substitution and flag
`true`. -/
def preTranslate (T : List (String × String)) (text : String) : String :=
  if text.isEmpty then text else (apply_terminology T text).1

/-- `pre_translated_texts` for a group. -/
def groupPre (T : List (String × String)) (g : StrategyGroup) : List String :=
  (groupTexts g).map (preTranslate T)

/-- `need_api_translation_flags` for a group. -/
def groupFlags (g : StrategyGroup) : List Bool :=
  (groupTexts g).map (fun t => !t.isEmpty)

/-- `need_api_indices = [i for i in range(len(texts)) if flags[i]]`. -/
def needApiIndices (g : StrategyGroup) : List Nat :=
  (List.range (groupTexts g).length).filter (fun i => (groupFlags g).getD i false)

/-- The greedy packing loop of `create_batches_for_api_texts`, carrying
the open batch and its byte count.  (List indexing `pre[idx]` is total in
the source for pipeline-produced indices; out-of-range defaults never
arise and are mapped to `""`.) -/
def batchAux (pre_translated_texts : List String) (max_chars_per_batch : Nat) :
    List Nat → List Nat → Nat → List (List Nat)
  | [], current_batch, _ =>
    if current_batch.isEmpty then [] else [current_batch]
  | idx :: rest, current_batch, current_chars =>
    let text_chars := (pre_translated_texts.getD idx "").utf8ByteSize
    if !current_batch.isEmpty && current_chars + text_chars > max_chars_per_batch then
      current_batch ::
        batchAux pre_translated_texts max_chars_per_batch rest [idx] text_chars
    else
      batchAux pre_translated_texts max_chars_per_batch rest
        (current_batch ++ [idx]) (current_chars + text_chars)

/-- `create_batches_for_api_texts`: pack the indices needing API
translation into batches whose UTF-8 byte sums respect the threshold. -/
def create_batches_for_api_texts (need_api_indices : List Nat)
    (pre_translated_texts : List String) (max_chars_per_batch : Nat) : List (List Nat) :=
  batchAux pre_translated_texts max_chars_per_batch need_api_indices [] 0

/-- UTF-8 byte sum of a batch's texts. -/
def batchBytes (pre : List String) (b : List Nat) : Nat :=
  (b.map (fun idx => (pre.getD idx "").utf8ByteSize)).sum

/-- The reconciliation loop of `process_batch`: walk the batch indices,
consuming one parsed-translation slot (`api_text_idx`) per flagged text;
missing slots keep the pre-translated text. -/
def reconcileBatch : List Nat → Int → List (Int × String) → List String → List Bool →
    List (Nat × String)
  | [], _, _, _, _ => []
  | idx :: rest, api_text_idx, api, pre, flags =>
    if flags.getD idx false then
      (match dictLookup api api_text_idx with
       | some tr => (idx, tr)
       | none => (idx, pre.getD idx "")) ::
        reconcileBatch rest (api_text_idx + 1) api pre flags
    else
      (idx, pre.getD idx "") :: reconcileBatch rest api_text_idx api pre flags

/-- `Translator.process_batch`: call the backend for the batch's texts; on
success reconcile the parsed numbered map; on failure (the exception from
exhausted retries) map every batch index to its pre-translated text and
report `success = false` — the exception is consumed here, never
propagated. -/
def process_batch (batch_indices : List Nat) (pre_translated_texts : List String)
    (need_api_translation_flags : List Bool) (backend1 : String → Option String) :
    List (Nat × String) × Bool :=
  let batch_texts := batch_indices.map (fun idx => pre_translated_texts.getD idx "")
  match translate_batch_of_texts backend1 batch_texts with
  | none =>
    (batch_indices.map (fun idx => (idx, pre_translated_texts.getD idx "")), false)
  | some api_translations =>
    (reconcileBatch batch_indices 0 api_translations pre_translated_texts
      need_api_translation_flags, true)

/-- Everything `batch_translate_with_multiple_strategies` does for one
strategy group: pre-translate, short-circuit groups with nothing to send,
otherwise batch and run `process_batch` per batch, translating each
batch-local index back to a global task index.  The returned list is the
sequence of `results_map` writes the group performs. -/
def processGroup (T : List (String × String)) (maxc : Nat)
    (backend : StrategyKey → String → Option String) (g : StrategyGroup) : List (Nat × String) :=
  let pre := groupPre T g
  let flags := groupFlags g
  let need_api := needApiIndices g
  if need_api.isEmpty then
    g.tasks.map (fun t => (t.index, t.text))
  else
    let batches := create_batches_for_api_texts need_api pre maxc
    (batches.map (fun b =>
      (process_batch b pre flags (backend g.key)).1.map
        (fun p => ((groupIndices g).getD p.1 0, p.2)))).flatten

/-- `Translator.batch_translate_with_multiple_strategies`: group, process
every group's batches, and fold all `results_map[task_index] = ...` writes
into the final map. -/
def batch_translate_with_multiple_strategies (T : List (String × String)) (maxc : Nat)
    (backend : StrategyKey → String → Option String)
    (tasks : List TranslationTask) : List (Nat × String) :=
  if tasks.isEmpty then []
  else
    let groups := strategy_groups tasks
    ((groups.map (processGroup T maxc backend)).flatten).foldl
      (fun m p => dictInsert m p.1 p.2) []

/-- The number of batches actually dispatched (`len(all_futures)`). -/
def total_batches (T : List (String × String)) (maxc : Nat) (groups : List StrategyGroup) : Nat :=
  (groups.map (fun g =>
    if (needApiIndices g).isEmpty then 0
    else (create_batches_for_api_texts (needApiIndices g) (groupPre T g) maxc).length)).sum

/-!
## `src/config/loader.py` — `ConfigLoader.get_strategies_for_file`

Strategies are dicts with optional keys; optional fields are embedded as
`Option` with the source's `.get(...)` defaults applied at the use sites.
`fnmatch.fnmatch` is embedded with POSIX case normalisation (the identity)
and the standard glob semantics: `*`, `?`, `[seq]` with ranges, `[!seq]`,
a `]` directly after the opening bracket is literal content, and an
unterminated `[` matches itself literally.  (The 3.7+ stdlib additionally
special-cases pathological range spellings such as `a--b`; no theorem
below involves bracket patterns at all.)  `os.path.basename` is embedded
with POSIX separators.
-/

/-- Scan a bracket expression up to the closing `]`; returns the content
and the remainder, or `none` when unterminated. -/
def scanToClose : List Char → Option (List Char × List Char)
  | [] => none
  | ']' :: rest => some ([], rest)
  | c :: rest => (scanToClose rest).map (fun p => (c :: p.1, p.2))

/-- Parse `[...]` content after the opening bracket: negation flag,
content (with a leading literal `]` kept), remainder. -/
def scanClass (ps : List Char) : Option (Bool × List Char × List Char) :=
  match ps with
  | '!' :: ']' :: rest => (scanToClose rest).map (fun p => (true, ']' :: p.1, p.2))
  | '!' :: rest => (scanToClose rest).map (fun p => (true, p.1, p.2))
  | ']' :: rest => (scanToClose rest).map (fun p => (false, ']' :: p.1, p.2))
  | rest => (scanToClose rest).map (fun p => (false, p.1, p.2))

/-- Membership of a character in bracket-expression content (characters
and `a-z` ranges). -/
def classMatch : List Char → Char → Bool
  | [], _ => false
  | [x], c => x == c
  | x :: '-' :: y :: rest, c => (x ≤ c && c ≤ y) || classMatch rest c
  | x :: rest, c => x == c || classMatch rest c

/-- Glob matching against a full pattern and name, with fuel (every step
consumes a pattern or name character, so pattern+name length suffices). -/
def globMatch : Nat → List Char → List Char → Bool
  | 0, p, s => p.isEmpty && s.isEmpty
  | _ + 1, [], s => s.isEmpty
  | fuel + 1, '*' :: ps, s =>
    globMatch fuel ps s ||
      (match s with
       | [] => false
       | _ :: cs => globMatch fuel ('*' :: ps) cs)
  | fuel + 1, '?' :: ps, s =>
    (match s with
     | [] => false
     | _ :: cs => globMatch fuel ps cs)
  | fuel + 1, '[' :: ps, s =>
    (match scanClass ps with
     | some (neg, content, rest) =>
       (match s with
        | [] => false
        | c :: cs =>
          (if neg then !(classMatch content c) else classMatch content c) &&
            globMatch fuel rest cs)
     | none =>
       (match s with
        | '[' :: cs => globMatch fuel ps cs
        | _ => false))
  | fuel + 1, p :: ps, s =>
    (match s with
     | c :: cs => p == c && globMatch fuel ps cs
     | [] => false)

/-- `fnmatch.fnmatch(name, pattern)` (POSIX normalisation). -/
def fnmatch (name pattern : String) : Bool :=
  globMatch (pattern.length + name.length + 1) pattern.toList name.toList

/-- `os.path.basename` with POSIX separators: everything after the last
`/`. -/
def basename (p : String) : String :=
  match (splitOnChar '/' p).getLast? with
  | some s => s
  | none => p

/-- One `file_patterns` entry: the glob pattern (`.get("pattern", "")`
applied) and an optional per-pattern `extract_fields` override. -/
structure PatternConfig where
  pattern : String
  extract_fields : Option (List String)
deriving DecidableEq

/-- One translation strategy dict.  Fields read through `.get(key,
default)` in the source are `Option`s here, with the default applied at
each use site exactly as the source does. -/
structure Strategy where
  name : Option String
  priority : Option Int
  file_patterns : List PatternConfig
  extract_fields : Option (List String)
  model : Option String
  prompt_file : Option String
deriving DecidableEq

/-- `strategy.get("priority", 999)`. -/
def strategyPriority (s : Strategy) : Int :=
  s.priority.getD 999

/-- Stable ascending insertion by priority: `x` walks past strictly
smaller priorities only, so it lands *before* every equal-priority
element of the sorted suffix.  Under the `foldr` below, that suffix holds
exactly the strategies that came *after* `x` in the configuration, so
ties keep their original order — matching Python's stable `sorted`. -/
def insertByPriority (x : Strategy) : List Strategy → List Strategy
  | [] => [x]
  | y :: ys =>
    if strategyPriority y < strategyPriority x then y :: insertByPriority x ys
    else x :: y :: ys

/-- `sorted(strategies, key=lambda x: x.get("priority", 999))`. -/
def sortStrategies (strategies : List Strategy) : List Strategy :=
  strategies.foldr insertByPriority []

/-- The per-pattern test of the collection loop: on a match (full path
first, else bare filename) a copy of the strategy carrying the resolved
`extract_fields` is appended. -/
def matchStrategy (file_path file_name : String) (s : Strategy) : List Strategy :=
  s.file_patterns.filterMap (fun pc =>
    let ef := match pc.extract_fields with
              | some v => some v
              | none => s.extract_fields
    if fnmatch file_path pc.pattern then some { s with extract_fields := ef }
    else if fnmatch file_name pc.pattern then some { s with extract_fields := ef }
    else none)

/-- `ConfigLoader.get_strategies_for_file`: all matching strategies in
ascending priority order (one copy per matching pattern entry); when
nothing matches, the strategy named `"default"` if present, else the
empty list. -/
def get_strategies_for_file (strategies : List Strategy) (file_path : String) :
    List Strategy :=
  let sorted_strategies := sortStrategies strategies
  let file_name := basename file_path
  let matching_strategies :=
    (sorted_strategies.map (matchStrategy file_path file_name)).flatten
  if matching_strategies.isEmpty then
    match sorted_strategies.find? (fun s => s.name == some "default") with
    | some d => [d]
    | none => []
  else matching_strategies

/-!
## `src/core/utils.py` — `TextUtils`

Paths mix dict keys and list indices; `extract_text_recursive` is a pure
depth-first walk and is embedded directly (the inner loops over object
fields and array elements become the two mutual helpers).  Python
truthiness of `extract_fields` (`None` and `[]` are both falsy) is
`efActive`.
-/

/-- One step of an extraction path: a list index or an object key. -/
inductive PathKey where
  | idx : Nat → PathKey
  | key : String → PathKey
deriving DecidableEq

/-- Truthiness of the `extract_fields` argument (`if extract_fields ...`). -/
def efActive : Option (List String) → Bool
  | none => false
  | some l => !l.isEmpty

mutual

/-- `TextUtils.extract_text_recursive`: yield `(path, text)` pairs of all
string leaves, pruning blacklisted object keys; with a truthy
`extract_fields`, only values of those keys are yielded (directly, when
they are strings) and bare string leaves are suppressed. -/
def extract_text_recursive (data : Json) (blacklist : List String)
    (current_path : List PathKey) (extract_fields : Option (List String)) :
    List (List PathKey × String) :=
  match data with
  | .obj fs => extractObjFields fs blacklist current_path extract_fields
  | .arr xs => extractArrItems xs 0 blacklist current_path extract_fields
  | .str s => if efActive extract_fields then [] else [(current_path, s)]
  | _ => []

/-- The `for key, value in data.items()` loop. -/
def extractObjFields (fs : List (String × Json)) (blacklist : List String)
    (current_path : List PathKey) (extract_fields : Option (List String)) :
    List (List PathKey × String) :=
  match fs with
  | [] => []
  | (k, v) :: rest =>
    (if blacklist.contains k then []
     else
       if efActive extract_fields && (extract_fields.getD []).contains k then
         match v with
         | .str s => [(current_path ++ [PathKey.key k], s)]
         | _ =>
           extract_text_recursive v blacklist (current_path ++ [PathKey.key k])
             extract_fields
       else
         extract_text_recursive v blacklist (current_path ++ [PathKey.key k])
           extract_fields)
    ++ extractObjFields rest blacklist current_path extract_fields

/-- The `for index, item in enumerate(data)` loop. -/
def extractArrItems (xs : List Json) (i : Nat) (blacklist : List String)
    (current_path : List PathKey) (extract_fields : Option (List String)) :
    List (List PathKey × String) :=
  match xs with
  | [] => []
  | x :: rest =>
    extract_text_recursive x blacklist (current_path ++ [PathKey.idx i]) extract_fields
    ++ extractArrItems rest (i + 1) blacklist current_path extract_fields

end

/-- `TextUtils.set_text_recursive`: walk `path[:-1]` and assign the value
at the last step.  `none` models every exception the source can raise on a
malformed path (empty path, index out of range, missing key, or a
non-container / wrong-kind container along the way); paths produced by
`extract_text_recursive` against the same structure never hit these. -/
def set_text_recursive (data : Json) (path : List PathKey) (value : String) : Option Json :=
  match path with
  | [] => none
  | [k] =>
    match data, k with
    | .arr xs, .idx n =>
      if n < xs.length then some (.arr (xs.set n (.str value))) else none
    | .obj fs, .key s => some (.obj (dictInsert fs s (.str value)))
    | _, _ => none
  | k :: rest =>
    match data, k with
    | .arr xs, .idx n =>
      match xs[n]? with
      | none => none
      | some x => (set_text_recursive x rest value).map (fun y => Json.arr (xs.set n y))
    | .obj fs, .key s =>
      match dictLookup fs s with
      | none => none
      | some v => (set_text_recursive v rest value).map (fun w => Json.obj (dictInsert fs s w))
    | _, _ => none

/-!
## `src/main.py` — `LCLT.modify`

The task-collection loop, the call to the batch translator, and the
write-back loop.  Model configs come from `ConfigLoader.get_model_config`
(`models.get(name, {})`, then `.get(field, default)` per field).
-/

/-- One model entry of `models.json`. -/
structure ModelConfig where
  api_key : Option String
  base_url : Option String
  model : Option String
  temperature : Option Rat
  enable_thinking : Option Bool
deriving DecidableEq

/-- `models.get(model_name, {})`. -/
def get_model_config (models : List (String × ModelConfig)) (model_name : String) :
    ModelConfig :=
  (dictLookup models model_name).getD ⟨none, none, none, none, none⟩

/-- The API parameters read off a strategy in `modify` (lines 199–209),
with the source's defaults. -/
def mkStrategyKey (mc : ModelConfig) (strat : Strategy) : StrategyKey :=
  { api_key := mc.api_key.getD ""
  , base_url := mc.base_url.getD ""
  , model := mc.model.getD "deepseek-chat"
  , temperature := mc.temperature.getD (1 / 10 : Rat)
  , enable_thinking := mc.enable_thinking.getD false
  , prompt_file := strat.prompt_file.getD "prompt.txt" }

/-- The collection state of `modify`: the `processed_fields` set (a Python
set, observed only through membership, embedded as the list of added
elements), the task list, and `task_positions`. -/
structure CollectState where
  processed_fields : List (Nat × List PathKey)
  all_translation_tasks : List TranslationTask
  task_positions : List (Nat × List PathKey)
deriving DecidableEq

/-- The inner `for path, text in extracted` body: skip already-claimed
`(file index, path)` pairs, otherwise claim the pair and append one task
(task index = current task-list length). -/
def addExtractedTask (models : List (String × ModelConfig)) (i : Nat) (strat : Strategy)
    (st : CollectState) (pr : List PathKey × String) : CollectState :=
  if st.processed_fields.contains (i, pr.1) then st
  else
    { processed_fields := st.processed_fields ++ [(i, pr.1)]
    , all_translation_tasks := st.all_translation_tasks ++
        [{ text := pr.2
         , strategy := mkStrategyKey (get_model_config models (strat.model.getD "deepseek")) strat
         , index := st.all_translation_tasks.length }]
    , task_positions := st.task_positions ++ [(i, pr.1)] }

/-- The `for strategy in strategies` loop for one dataList item. -/
def collectItem (models : List (String × ModelConfig)) (blacklist : List String)
    (i j : Nat) (strategies : List Strategy) (item : Json) (st : CollectState) :
    CollectState :=
  strategies.foldl
    (fun acc strat =>
      (extract_text_recursive item blacklist [PathKey.idx j] strat.extract_fields).foldl
        (addExtractedTask models i strat) acc)
    st

/-- The `for j, item in enumerate(data_list)` loop. -/
def collectItems (models : List (String × ModelConfig)) (blacklist : List String)
    (i : Nat) (strategies : List Strategy) :
    List Json → Nat → CollectState → CollectState
  | [], _, st => st
  | item :: rest, j, st =>
    collectItems models blacklist i strategies rest (j + 1)
      (collectItem models blacklist i j strategies item st)

/-- One delta file of `modify`: files without a `dataList` object content
are skipped (`continue`). -/
def collectFile (cfg : List Strategy) (models : List (String × ModelConfig))
    (blacklist : List String) (i : Nat) (file : DeltaRecord) (st : CollectState) :
    CollectState :=
  match file.content with
  | some (Json.obj fs) =>
    match dictLookup fs "dataList" with
    | some (Json.arr data_list) =>
      collectItems models blacklist i (get_strategies_for_file cfg file.rel_path)
        data_list 0 st
    | _ => st
  | _ => st

/-- The `for i, file in enumerate(files)` loop. -/
def collectFiles (cfg : List Strategy) (models : List (String × ModelConfig))
    (blacklist : List String) : List DeltaRecord → Nat → CollectState → CollectState
  | [], _, st => st
  | f :: rest, i, st =>
    collectFiles cfg models blacklist rest (i + 1) (collectFile cfg models blacklist i f st)

/-- The whole task-collection phase of `modify`. -/
def collect_tasks (cfg : List Strategy) (models : List (String × ModelConfig))
    (blacklist : List String) (files : List DeltaRecord) : CollectState :=
  collectFiles cfg models blacklist files 0 ⟨[], [], []⟩

/-- One write-back: `set_text_recursive(files[i]["content"]["dataList"],
path, translated_text)`, rebuilding the record functionally. -/
def writeOne (files : List DeltaRecord) (i : Nat) (path : List PathKey) (txt : String) :
    Option (List DeltaRecord) :=
  match files[i]? with
  | none => none
  | some f =>
    match f.content with
    | some (Json.obj fs) =>
      match dictLookup fs "dataList" with
      | some dl =>
        match set_text_recursive dl path txt with
        | none => none
        | some dl2 =>
          some (files.set i { f with content := some (Json.obj (dictInsert fs "dataList" dl2)) })
      | none => none
    | _ => none

/-- The `for task_idx, (i, path) in enumerate(task_positions)` write-back
loop; task indices absent from the translation map are left untouched. -/
def writeBackAll (files : List DeltaRecord) :
    List (Nat × List PathKey) → Nat → List (Nat × String) → Option (List DeltaRecord)
  | [], _, _ => some files
  | (i, path) :: rest, task_idx, tm =>
    match dictLookup tm task_idx with
    | none => writeBackAll files rest (task_idx + 1) tm
    | some txt =>
      match writeOne files i path txt with
      | none => none
      | some files2 => writeBackAll files2 rest (task_idx + 1) tm

/-- `LCLT.modify`: collect tasks, translate them in batches, write the
results back into the delta, and return it. -/
def LCLT.modify (cfg : List Strategy) (models : List (String × ModelConfig))
    (blacklist : List String) (T : List (String × String)) (maxc : Nat)
    (backend : StrategyKey → String → Option String)
    (files : List DeltaRecord) : Option (List DeltaRecord) :=
  let st := collect_tasks cfg models blacklist files
  if st.all_translation_tasks.isEmpty then some files
  else
    writeBackAll files st.task_positions 0
      (batch_translate_with_multiple_strategies T maxc backend st.all_translation_tasks)

/-!
## Verification auxiliaries (used only by the statements and proofs below)
-/

/-- The tasks of a group list, in order (grouping partitions the task
list up to permutation). -/
def groupsTasks (groups : List StrategyGroup) : List TranslationTask :=
  (groups.map (fun g => g.tasks)).flatten

/-- Invariant of the `modify` collection state: the processed set and the
position list hold the same pairs, positions are duplicate-free, and
tasks and positions are in bijection (appended in lockstep). -/
def CollectInv (st : CollectState) : Prop :=
  st.processed_fields = st.task_positions ∧ st.task_positions.Nodup ∧
    st.all_translation_tasks.length = st.task_positions.length

/-- `st2` extends `st`: the position list only ever grows by appending. -/
def PosExt (st st2 : CollectState) : Prop :=
  ∃ ext, st2.task_positions = st.task_positions ++ ext

/-!
# Theorems

Generic association-list (Python dict) lemmas first, then the claims in
order.
-/

theorem dictLookup_dictInsert_self {α β : Type} [BEq α] [LawfulBEq α]
    (m : List (α × β)) (k : α) (v : β) :
    dictLookup (dictInsert m k v) k = some v := by
  induction m with
  | nil => simp [dictInsert, dictLookup]
  | cons p rest ih =>
    by_cases h : (p.1 == k) = true
    · simp [dictInsert, dictLookup, h]
    · simp only [dictInsert, dictLookup, h, Bool.false_eq_true, if_neg, if_false]
      simpa [dictLookup, h] using ih

theorem dictLookup_dictInsert_ne {α β : Type} [BEq α] [LawfulBEq α]
    (m : List (α × β)) (k k2 : α) (v : β) (h : k2 ≠ k) :
    dictLookup (dictInsert m k v) k2 = dictLookup m k2 := by
  induction m with
  | nil => simp [dictInsert, dictLookup, Ne.symm h]
  | cons p rest ih =>
    by_cases hp : (p.1 == k) = true
    · have hp1 : p.1 = k := by simpa using hp
      simp [dictInsert, dictLookup, hp, hp1, Ne.symm h]
    · by_cases hp2 : (p.1 == k2) = true
      · simp [dictInsert, dictLookup, hp, hp2]
      · simp only [dictInsert, dictLookup, hp, hp2, Bool.false_eq_true, if_neg, if_false]
        simpa [dictLookup, hp2] using ih

theorem dictLookup_foldl_insert_notmem {α β : Type} [BEq α] [LawfulBEq α] :
    ∀ (l : List (α × β)) (m : List (α × β)) (k : α), k ∉ l.map Prod.fst →
      dictLookup (l.foldl (fun acc p => dictInsert acc p.1 p.2) m) k = dictLookup m k := by
  intro l
  induction l with
  | nil => intro m k _; rfl
  | cons p rest ih =>
    intro m k hk
    simp only [List.map_cons, List.mem_cons, not_or] at hk
    simp only [List.foldl_cons]
    rw [ih _ k hk.2, dictLookup_dictInsert_ne _ _ _ _ hk.1]

theorem dictLookup_foldl_insert {α β : Type} [BEq α] [LawfulBEq α] :
    ∀ (l : List (α × β)) (m : List (α × β)) (k : α) (v : β),
      (l.map Prod.fst).Nodup → (k, v) ∈ l →
      dictLookup (l.foldl (fun acc p => dictInsert acc p.1 p.2) m) k = some v := by
  intro l
  induction l with
  | nil => intro m k v _ hmem; simp at hmem
  | cons p rest ih =>
    intro m k v hnd hmem
    simp only [List.map_cons, List.nodup_cons] at hnd
    simp only [List.foldl_cons]
    rcases List.mem_cons.1 hmem with heq | hmem2
    · subst heq
      rw [dictLookup_foldl_insert_notmem rest _ k hnd.1, dictLookup_dictInsert_self]
    · exact ih _ k v hnd.2 hmem2

theorem batchBytes_nil (pre : List String) : batchBytes pre [] = 0 := rfl

theorem batchBytes_append (pre : List String) (b : List Nat) (i : Nat) :
    batchBytes pre (b ++ [i]) = batchBytes pre b + (pre.getD i "").utf8ByteSize := by
  simp [batchBytes]

theorem batchBytes_single (pre : List String) (i : Nat) :
    batchBytes pre [i] = (pre.getD i "").utf8ByteSize := by
  simp [batchBytes]

theorem batchAux_flatten (pre : List String) (maxc : Nat) :
    ∀ (rest cur : List Nat) (chars : Nat),
      (batchAux pre maxc rest cur chars).flatten = cur ++ rest := by
  intro rest
  induction rest with
  | nil =>
    intro cur chars
    by_cases h : cur.isEmpty
    · have : cur = [] := by simpa [List.isEmpty_iff] using h
      simp [batchAux, h, this]
    · simp [batchAux, h]
  | cons idx rest ih =>
    intro cur chars
    simp only [batchAux]
    split
    · simp [ih]
    · simp [ih]

theorem batchAux_bound (pre : List String) (maxc : Nat) :
    ∀ (rest cur : List Nat) (chars : Nat), chars = batchBytes pre cur →
      (1 < cur.length → chars ≤ maxc) →
      ∀ b ∈ batchAux pre maxc rest cur chars, 1 < b.length → batchBytes pre b ≤ maxc := by
  intro rest
  induction rest with
  | nil =>
    intro cur chars hchars hcur b hb hlen
    by_cases h : cur.isEmpty
    · simp [batchAux, h] at hb
    · simp only [batchAux, h, if_neg, Bool.false_eq_true, if_false, List.mem_singleton] at hb
      subst hb
      exact hchars ▸ hcur hlen
  | cons idx rest ih =>
    intro cur chars hchars hcur b hb hlen
    simp only [batchAux] at hb
    split at hb
    · rename_i hclose
      rcases List.mem_cons.1 hb with hb1 | hb2
      · subst hb1
        exact hchars ▸ hcur hlen
      · refine ih [idx] _ (by simp [batchBytes]) (by intro h; simp at h) b hb2 hlen
    · rename_i hopen
      have hsplit : cur = [] ∨ chars + (pre.getD idx "").utf8ByteSize ≤ maxc := by
        by_cases hc : cur.isEmpty
        · exact Or.inl (by simpa [List.isEmpty_iff] using hc)
        · have hc2 : cur.isEmpty = false := by simpa using hc
          right
          rw [hc2] at hopen
          simp only [Bool.not_false, Bool.true_and, decide_eq_true_eq, not_lt] at hopen
          exact hopen
      refine ih (cur ++ [idx]) _ (by rw [hchars, batchBytes_append]) ?_ b hb hlen
      intro hlen2
      rcases hsplit with hnil | hle
      · subst hnil
        simp at hlen2
      · exact hle

/-- C5: every batch produced by `create_batches_for_api_texts` that
contains more than one text has UTF-8 byte sum at most the configured
threshold; the batches partition the input indices in order (no text is
dropped or split); and an index whose text alone exceeds the threshold
always sits in a singleton batch. -/
theorem C5_batch_byte_bound (need_api_indices : List Nat)
    (pre_translated_texts : List String) (max_chars_per_batch : Nat) :
    (∀ b ∈ create_batches_for_api_texts need_api_indices pre_translated_texts
        max_chars_per_batch,
        1 < b.length → batchBytes pre_translated_texts b ≤ max_chars_per_batch)
  ∧ (create_batches_for_api_texts need_api_indices pre_translated_texts
      max_chars_per_batch).flatten = need_api_indices
  ∧ (∀ i ∈ need_api_indices,
      max_chars_per_batch < (pre_translated_texts.getD i "").utf8ByteSize →
      ∀ b ∈ create_batches_for_api_texts need_api_indices pre_translated_texts
          max_chars_per_batch,
        i ∈ b → b = [i]) := by
  refine ⟨?_, ?_, ?_⟩
  · exact batchAux_bound pre_translated_texts max_chars_per_batch need_api_indices [] 0
      rfl (by intro h; simp at h)
  · exact batchAux_flatten pre_translated_texts max_chars_per_batch need_api_indices [] 0
  · intro i _ hover b hb hib
    have hbytes : (pre_translated_texts.getD i "").utf8ByteSize ≤
        batchBytes pre_translated_texts b := by
      exact List.single_le_sum (fun x _ => Nat.zero_le x) _
        (List.mem_map_of_mem _ hib)
    have hlen : ¬ 1 < b.length := by
      intro hl
      have hle := batchAux_bound pre_translated_texts max_chars_per_batch
        need_api_indices [] 0 rfl (by intro h; simp at h) b hb hl
      omega
    match b, hib, hlen with
    | [x], hib, _ => simpa using (List.mem_singleton.1 hib) ▸ rfl
    | x :: y :: rest, _, hlen => exact absurd (by simp) hlen

/-- Witness for C5 at a concrete packing: with threshold 4 and texts of 2
bytes each, the first produced batch is `[0, 1]` and respects the bound. -/
theorem C5_witness : batchBytes ["aa", "bb", "cc"] [0, 1] ≤ 4 :=
  (C5_batch_byte_bound [0, 1, 2] ["aa", "bb", "cc"] 4).1 [0, 1] (by decide) (by decide)

theorem mergeAux_cons_mem (acc ids : List Json) (item : Json) (rest : List Json) (v : Json)
    (hid : itemIdOf item = some v) (hc : v ∈ ids) :
    mergeAux acc ids (item :: rest) = mergeAux acc ids rest := by
  simp [mergeAux, hid, hc]

theorem mergeAux_cons_new (acc ids : List Json) (item : Json) (rest : List Json) (v : Json)
    (hid : itemIdOf item = some v) (hc : v ∉ ids) :
    mergeAux acc ids (item :: rest) = mergeAux (acc ++ [item]) (ids ++ [v]) rest := by
  simp [mergeAux, hid, hc]

theorem mergeAux_cons_noid (acc ids : List Json) (item : Json) (rest : List Json)
    (hid : itemIdOf item = none) :
    mergeAux acc ids (item :: rest) = mergeAux (acc ++ [item]) ids rest := by
  simp [mergeAux, hid]

theorem mergeAux_append_ext : ∀ (s acc ids : List Json), ∃ ext, mergeAux acc ids s = acc ++ ext := by
  intro s
  induction s with
  | nil => intro acc ids; exact ⟨[], by simp [mergeAux]⟩
  | cons item rest ih =>
    intro acc ids
    cases hid : itemIdOf item with
    | some v =>
      by_cases hc : v ∈ ids
      · rw [mergeAux_cons_mem acc ids item rest v hid hc]
        exact ih acc ids
      · rw [mergeAux_cons_new acc ids item rest v hid hc]
        obtain ⟨ext, he⟩ := ih (acc ++ [item]) (ids ++ [v])
        exact ⟨item :: ext, by simp [he]⟩
    | none =>
      rw [mergeAux_cons_noid acc ids item rest hid]
      obtain ⟨ext, he⟩ := ih (acc ++ [item]) ids
      exact ⟨item :: ext, by simp [he]⟩

theorem collectIds_append (a b : List Json) :
    collectIds (a ++ b) = collectIds a ++ collectIds b := by
  simp [collectIds]

theorem mem_collectIds_mergeAux (s acc ids : List Json) (x : Json)
    (hx : x ∈ collectIds acc) : x ∈ collectIds (mergeAux acc ids s) := by
  obtain ⟨ext, he⟩ := mergeAux_append_ext s acc ids
  rw [he, collectIds_append]
  exact List.mem_append_left _ hx

theorem mergeAux_ids_present :
    ∀ (s acc ids : List Json),
      (∀ x ∈ ids, x ∈ collectIds acc) →
      ∀ it ∈ s, ∀ v, itemIdOf it = some v → v ∈ collectIds (mergeAux acc ids s) := by
  intro s
  induction s with
  | nil => intro acc ids _ it hit; simp at hit
  | cons item rest ih =>
    intro acc ids hinv it hit v hv
    cases hid : itemIdOf item with
    | some w =>
      by_cases hc : w ∈ ids
      · rw [mergeAux_cons_mem acc ids item rest w hid hc]
        rcases List.mem_cons.1 hit with he | hrest
        · subst he
          have hvw : v = w := Option.some_inj.1 (hv.symm.trans hid)
          subst hvw
          exact mem_collectIds_mergeAux rest acc ids v (hinv v hc)
        · exact ih acc ids hinv it hrest v hv
      · rw [mergeAux_cons_new acc ids item rest w hid hc]
        have hinv2 : ∀ x ∈ ids ++ [w], x ∈ collectIds (acc ++ [item]) := by
          intro x hx
          rw [collectIds_append]
          rcases List.mem_append.1 hx with h1 | h2
          · exact List.mem_append_left _ (hinv x h1)
          · refine List.mem_append_right _ ?_
            rw [List.mem_singleton.1 h2]
            simp [collectIds, hid]
        rcases List.mem_cons.1 hit with he | hrest
        · have hvw : v = w := Option.some_inj.1 ((he ▸ hv).symm.trans hid)
          rw [hvw]
          exact mem_collectIds_mergeAux rest (acc ++ [item]) (ids ++ [w]) w
            (hinv2 w (by simp))
        · exact ih (acc ++ [item]) (ids ++ [w]) hinv2 it hrest v hv
    | none =>
      rcases List.mem_cons.1 hit with he | hrest
      · subst he
        exact absurd (hv.symm.trans hid).symm (by simp)
      · rw [mergeAux_cons_noid acc ids item rest hid]
        refine ih (acc ++ [item]) ids ?_ it hrest v hv
        intro x hx
        rw [collectIds_append]
        exact List.mem_append_left _ (hinv x hx)

theorem mergeAux_noop :
    ∀ (s acc ids : List Json),
      (∀ it ∈ s, ∃ v, itemIdOf it = some v ∧ v ∈ ids) →
      mergeAux acc ids s = acc := by
  intro s
  induction s with
  | nil => intro acc ids _; rfl
  | cons item rest ih =>
    intro acc ids h
    obtain ⟨v, hv, hmem⟩ := h item (by simp)
    rw [mergeAux_cons_mem acc ids item rest v hv hmem]
    exact ih acc ids (fun it hit => h it (by simp [hit]))

/-- C4 counterexample: an item without an `id` is appended on every merge,
so merging the same source list twice is not the same as merging it once —
the claim's unconditional idempotence fails. -/
theorem C4_counterexample :
    merge_datalists (merge_datalists [] [Json.obj [("text", Json.str "x")]])
        [Json.obj [("text", Json.str "x")]]
      ≠ merge_datalists [] [Json.obj [("text", Json.str "x")]] := by decide

/-- C4 amended: `merge_datalists` never rewrites or removes an existing
target item (the target list is always a prefix of the result), and it is
idempotent for source lists in which every item carries a non-null id. -/
theorem C4_merge_idempotent (target_list source_list : List Json) :
    (∃ ext, merge_datalists target_list source_list = target_list ++ ext)
  ∧ ((∀ it ∈ source_list, (itemIdOf it).isSome) →
      merge_datalists (merge_datalists target_list source_list) source_list
        = merge_datalists target_list source_list) := by
  constructor
  · exact mergeAux_append_ext source_list target_list (collectIds target_list)
  · intro h
    unfold merge_datalists
    apply mergeAux_noop
    intro it hit
    obtain ⟨v, hv⟩ := Option.isSome_iff_exists.1 (h it hit)
    exact ⟨v, hv, mergeAux_ids_present source_list target_list
      (collectIds target_list) (fun x hx => hx) it hit v hv⟩

/-- Witness for C4 at concrete lists: merging `[{id:2}]` into `[{id:1}]`
twice equals merging it once. -/
theorem C4_witness :
    merge_datalists (merge_datalists [Json.obj [("id", Json.num 1)]]
        [Json.obj [("id", Json.num 2)]]) [Json.obj [("id", Json.num 2)]]
      = merge_datalists [Json.obj [("id", Json.num 1)]] [Json.obj [("id", Json.num 2)]] :=
  (C4_merge_idempotent [Json.obj [("id", Json.num 1)]] [Json.obj [("id", Json.num 2)]]).2
    (by decide)

theorem groupsTasks_addTask (gs : List StrategyGroup) (t : TranslationTask) :
    List.Perm (groupsTasks (addTaskToGroups gs t)) (groupsTasks gs ++ [t]) := by
  induction gs with
  | nil => simp [addTaskToGroups, groupsTasks]
  | cons g rest ih =>
    by_cases h : (g.key == t.strategy) = true
    · simp only [addTaskToGroups, h, if_pos, groupsTasks, List.map_cons, List.flatten_cons]
      have h1 : (g.tasks ++ [t]) ++ (rest.map (fun g => g.tasks)).flatten
          = g.tasks ++ ([t] ++ (rest.map (fun g => g.tasks)).flatten) := by
        simp [List.append_assoc]
      rw [h1, List.append_assoc]
      exact List.Perm.append_left _ List.perm_append_comm
    · have hf : (g.key == t.strategy) = false := by simpa using h
      simp only [addTaskToGroups, hf, Bool.false_eq_true, if_neg, if_false, groupsTasks,
        List.map_cons, List.flatten_cons]
      rw [List.append_assoc]
      exact List.Perm.append_left _ (by simpa [groupsTasks] using ih)

theorem groupsTasks_foldl (ts : List TranslationTask) :
    ∀ gs, List.Perm (groupsTasks (ts.foldl addTaskToGroups gs)) (groupsTasks gs ++ ts) := by
  induction ts with
  | nil => intro gs; simp
  | cons t rest ih =>
    intro gs
    simp only [List.foldl_cons]
    refine (ih (addTaskToGroups gs t)).trans ?_
    refine (List.Perm.append_right rest (groupsTasks_addTask gs t)).trans ?_
    have h2 : (groupsTasks gs ++ [t]) ++ rest = groupsTasks gs ++ (t :: rest) := by simp
    rw [h2]

theorem strategy_groups_perm (tasks : List TranslationTask) :
    List.Perm (groupsTasks (strategy_groups tasks)) tasks := by
  simpa [groupsTasks] using groupsTasks_foldl tasks []

/-- C10 counterexample: two tiny same-policy tasks form a single batch,
but the source sizes the pool by the task count: the pool gets 2 workers
while `min(configuredMaxWorkers, totalBatchCount) = min 5 1 = 1`. -/
theorem C10_counterexample :
    total_workers 5 (strategy_groups
      [⟨"aa", ⟨"", "", "m", 1, false, "p"⟩, 0⟩,
       ⟨"bb", ⟨"", "", "m", 1, false, "p"⟩, 1⟩]) = 2
  ∧ total_batches [] 2200 (strategy_groups
      [⟨"aa", ⟨"", "", "m", 1, false, "p"⟩, 0⟩,
       ⟨"bb", ⟨"", "", "m", 1, false, "p"⟩, 1⟩]) = 1
  ∧ (2 : Nat) ≠ min 5 1 := by
  refine ⟨by rfl, by rfl, by decide⟩

/-- C10 amended: for every non-empty task list the shared pool is sized
`min(configuredMaxWorkers, totalTaskCount)` — the total task count, not
the batch count (grouping partitions the tasks, so the group sizes sum to
the task count). -/
theorem C10_pool_size (max_workers : Nat) (tasks : List TranslationTask)
    (_h : tasks ≠ []) :
    total_workers max_workers (strategy_groups tasks) = min max_workers tasks.length := by
  unfold total_workers
  congr 1
  have h1 : ((strategy_groups tasks).map (fun g => g.tasks.length)).sum
      = (groupsTasks (strategy_groups tasks)).length := by
    simp only [groupsTasks, List.length_flatten, List.map_map]
    rfl
  rw [h1, (strategy_groups_perm tasks).length_eq]

/-- Witness for C10 at a single concrete task. -/
theorem C10_witness :
    total_workers 5 (strategy_groups [⟨"aa", ⟨"", "", "m", 1, false, "p"⟩, 0⟩])
      = min 5 1 :=
  C10_pool_size 5 [⟨"aa", ⟨"", "", "m", 1, false, "p"⟩, 0⟩] (by decide)

/-- C1: for a record id present in both maps where both contents carry a
`dataList` and the list lengths differ, the per-record diff emits exactly
the origin items whose id is non-null and absent from the existing
non-null ids, in origin order (a `filter` of the origin list), and emits
nothing when no item survives; `find_new_content` is precisely this
per-record function mapped over the origin map in order. -/
theorem C1_delta_items (origin existing : List (String × RecordFile)) (file_id : String)
    (origin_file existing_file : RecordFile) (ofs efs : List (String × Json))
    (odl edl : List Json)
    (h1 : dictLookup existing file_id = some existing_file)
    (h2 : origin_file.content = some (Json.obj ofs))
    (h3 : dictLookup ofs "dataList" = some (Json.arr odl))
    (h4 : existing_file.content = some (Json.obj efs))
    (h5 : dictLookup efs "dataList" = some (Json.arr edl))
    (h6 : odl.length ≠ edl.length) :
    (findNewRecord existing file_id origin_file =
      (let new_items := odl.filter (fun item =>
          match itemIdOf item with
          | some v => !((collectIds edl).contains v)
          | none => false);
       if new_items.isEmpty then none
       else some { rel_path := file_id, filename := origin_file.filename,
                   content := some (Json.obj (dictInsert ofs "dataList"
                     (Json.arr new_items))) }))
  ∧ find_new_content origin existing
      = origin.filterMap (fun p => findNewRecord existing p.1 p.2) := by
  refine ⟨?_, rfl⟩
  have hne : ofs ≠ [] := by
    intro he
    rw [he] at h3
    simp [dictLookup] at h3
  have hfalsy : (Json.obj ofs).isFalsy = false := by
    cases ofs with
    | nil => exact absurd rfl hne
    | cons a l => simp [Json.isFalsy]
  have hlen : (odl.length == edl.length) = false := by simpa using h6
  simp only [findNewRecord, h2, h1, h4, h3, h5, hfalsy, Bool.false_eq_true, if_neg,
    if_false, hlen]

/-- Witness for C1 at the claim's concrete scenario: origin items
`[{id:1,text:"a"},{id:2,text:"b"}]` against existing `[{id:1,text:"a"}]`
yield exactly `[{id:2,text:"b"}]`. -/
theorem C1_witness :
    findNewRecord
        [("X.json", ⟨"X.json", some (Json.obj [("dataList", Json.arr
          [Json.obj [("id", Json.num 1), ("text", Json.str "a")]])])⟩)]
        "X.json"
        ⟨"X.json", some (Json.obj [("dataList", Json.arr
          [Json.obj [("id", Json.num 1), ("text", Json.str "a")],
           Json.obj [("id", Json.num 2), ("text", Json.str "b")]])])⟩
      = some { rel_path := "X.json", filename := "X.json",
               content := some (Json.obj [("dataList", Json.arr
                 [Json.obj [("id", Json.num 2), ("text", Json.str "b")]])]) } := by
  have h := (C1_delta_items []
      [("X.json", ⟨"X.json", some (Json.obj [("dataList", Json.arr
        [Json.obj [("id", Json.num 1), ("text", Json.str "a")]])])⟩)]
      "X.json"
      ⟨"X.json", some (Json.obj [("dataList", Json.arr
        [Json.obj [("id", Json.num 1), ("text", Json.str "a")],
         Json.obj [("id", Json.num 2), ("text", Json.str "b")]])])⟩
      ⟨"X.json", some (Json.obj [("dataList", Json.arr
        [Json.obj [("id", Json.num 1), ("text", Json.str "a")]])])⟩
      [("dataList", Json.arr
        [Json.obj [("id", Json.num 1), ("text", Json.str "a")],
         Json.obj [("id", Json.num 2), ("text", Json.str "b")]])]
      [("dataList", Json.arr [Json.obj [("id", Json.num 1), ("text", Json.str "a")]])]
      [Json.obj [("id", Json.num 1), ("text", Json.str "a")],
       Json.obj [("id", Json.num 2), ("text", Json.str "b")]]
      [Json.obj [("id", Json.num 1), ("text", Json.str "a")]]
      (by decide) rfl rfl rfl rfl (by decide)).1
  rw [h]
  decide

theorem extract_fold_lookup_keep :
    ∀ (files : List WalkedFile) (acc : List (String × RecordFile)) (fid : String)
      (r : RecordFile), dictLookup acc fid = some r →
      (∀ w2 ∈ files, pyEndsWith (pyLower w2.filename) ".json" = true →
        fileIdOf w2.rel_path (modify_filename w2.filename) = fid →
        ({ filename := modify_filename w2.filename, content := w2.parsed } : RecordFile) = r) →
      dictLookup (files.foldl extractFileStep acc) fid = some r := by
  intro files
  induction files with
  | nil => intro acc fid r hacc _; exact hacc
  | cons f rest ih =>
    intro acc fid r hacc hall
    simp only [List.foldl_cons]
    by_cases hjson : pyEndsWith (pyLower f.filename) ".json" = true
    · by_cases hid : fileIdOf f.rel_path (modify_filename f.filename) = fid
      · have hrec := hall f (by simp) hjson hid
        have hstep : extractFileStep acc f = dictInsert acc fid r := by
          simp [extractFileStep, hjson, hid, hrec]
        rw [hstep]
        exact ih _ fid r (dictLookup_dictInsert_self acc fid r)
          (fun w2 hw2 => hall w2 (by simp [hw2]))
      · have hstep : extractFileStep acc f
            = dictInsert acc (fileIdOf f.rel_path (modify_filename f.filename))
                { filename := modify_filename f.filename, content := f.parsed } := by
          simp [extractFileStep, hjson]
        rw [hstep]
        refine ih _ fid r ?_ (fun w2 hw2 => hall w2 (by simp [hw2]))
        rw [dictLookup_dictInsert_ne _ _ _ _ (fun e => hid e.symm)]
        exact hacc
    · have hstep : extractFileStep acc f = acc := by
        simp [extractFileStep, hjson]
      rw [hstep]
      exact ih _ fid r hacc (fun w2 hw2 => hall w2 (by simp [hw2]))

theorem extract_fold_lookup_mem :
    ∀ (files : List WalkedFile) (acc : List (String × RecordFile)) (w : WalkedFile),
      w ∈ files → pyEndsWith (pyLower w.filename) ".json" = true →
      (∀ w2 ∈ files, pyEndsWith (pyLower w2.filename) ".json" = true →
        fileIdOf w2.rel_path (modify_filename w2.filename)
          = fileIdOf w.rel_path (modify_filename w.filename) → w2 = w) →
      dictLookup (files.foldl extractFileStep acc)
          (fileIdOf w.rel_path (modify_filename w.filename))
        = some { filename := modify_filename w.filename, content := w.parsed } := by
  intro files
  induction files with
  | nil => intro acc w hmem; simp at hmem
  | cons f rest ih =>
    intro acc w hmem hjson huniq
    rcases List.mem_cons.1 hmem with he | hr
    · subst he
      simp only [List.foldl_cons]
      have hstep : extractFileStep acc w
          = dictInsert acc (fileIdOf w.rel_path (modify_filename w.filename))
              { filename := modify_filename w.filename, content := w.parsed } := by
        simp [extractFileStep, hjson]
      rw [hstep]
      refine extract_fold_lookup_keep rest _ _ _ (dictLookup_dictInsert_self _ _ _) ?_
      intro w2 hw2 hw2json hw2id
      rw [huniq w2 (by simp [hw2]) hw2json hw2id]
    · simp only [List.foldl_cons]
      exact ih _ w hr hjson (fun w2 hw2 => huniq w2 (by simp [hw2]))

/-- C7 counterexample: a source-side file that fails to parse is kept in
the record map with null content, but `find_new_content` then *skips* it
(the delta is empty) instead of reporting it as fully new. -/
theorem C7_counterexample :
    extract_files_content [⟨".", "a.json", none⟩] = [("a.json", ⟨"a.json", none⟩)]
  ∧ find_new_content [("a.json", ⟨"a.json", none⟩)] [] = [] :=
  ⟨rfl, rfl⟩

/-- C7 amended: a file that fails to parse as JSON is kept in the
extracted record map with `content = null` rather than raised (given its
record id is not overwritten by another walked file); when the
*existing-side* record for an id has null content, `find_new_content`
reports the whole origin record as fully new; an *origin-side* record
with null content is skipped and never appears in the delta. -/
theorem C7_parse_error_handling :
    (∀ (files : List WalkedFile) (w : WalkedFile), w ∈ files →
      pyEndsWith (pyLower w.filename) ".json" = true → w.parsed = none →
      (∀ w2 ∈ files, pyEndsWith (pyLower w2.filename) ".json" = true →
        fileIdOf w2.rel_path (modify_filename w2.filename)
          = fileIdOf w.rel_path (modify_filename w.filename) → w2 = w) →
      dictLookup (extract_files_content files)
          (fileIdOf w.rel_path (modify_filename w.filename))
        = some { filename := modify_filename w.filename, content := none })
  ∧ (∀ (existing : List (String × RecordFile)) (file_id : String)
      (existing_file origin_file : RecordFile) (c : Json),
      dictLookup existing file_id = some existing_file →
      existing_file.content = none →
      origin_file.content = some c → c.isFalsy = false →
      findNewRecord existing file_id origin_file
        = some { rel_path := file_id, filename := origin_file.filename,
                 content := some c })
  ∧ (∀ (existing : List (String × RecordFile)) (file_id fn : String),
      findNewRecord existing file_id ⟨fn, none⟩ = none) := by
  refine ⟨?_, ?_, fun _ _ _ => rfl⟩
  · intro files w hmem hjson hparsed huniq
    have h := extract_fold_lookup_mem files [] w hmem hjson huniq
    rw [hparsed] at h
    exact h
  · intro existing file_id existing_file origin_file c h1 h2 h3 h4
    simp only [findNewRecord, h1, h2, h3, h4, Bool.false_eq_true, if_neg, if_false]

/-- Witness for C7: a parse-failed `KR_a.json` is kept in the map under
the prefix-stripped id with null content. -/
theorem C7_witness :
    dictLookup (extract_files_content [⟨".", "KR_a.json", none⟩])
        (fileIdOf "." (modify_filename "KR_a.json"))
      = some { filename := modify_filename "KR_a.json", content := none } :=
  C7_parse_error_handling.1 [⟨".", "KR_a.json", none⟩] ⟨".", "KR_a.json", none⟩
    (by simp) (by decide) rfl (by decide)

/-- C2: behaviour of the numbered-response parser: a sentinel line
flushes the open entry into the result map at its (already 0-based) key; a
line matching the numbered pattern flushes any previously open entry and
opens entry `number - 1`; any other non-blank line is appended
(newline-joined at flush time) to the open entry; and the claim's
concrete backend reply parses to `{0: 你好, 1: 世界}`. -/
theorem C2_numbered_parse :
    (∀ (st : NumParseState) (n : Int) (t : String) (ts : List String),
      st.current_num = some n → st.current_translation = t :: ts →
      parseLine st "---SPLITTER---" =
        { current_num := none, current_translation := [],
          api_translations := dictInsert st.api_translations n (joinStrip (t :: ts)) })
  ∧ (∀ (st : NumParseState) (line : String) (n : Nat) (g2 : Option String),
      pyStrip line = line → line ≠ "" → line ≠ "---SPLITTER---" →
      matchNumberedLine line = some (n, g2) →
      parseLine st line =
        { current_num := some ((n : Int) - 1),
          current_translation := (match g2 with | some g => [pyStrip g] | none => []),
          api_translations :=
            (match st.current_num, st.current_translation with
             | some m, t :: ts => dictInsert st.api_translations m (joinStrip (t :: ts))
             | _, _ => st.api_translations) })
  ∧ (∀ (st : NumParseState) (line : String) (m : Int),
      pyStrip line = line → line ≠ "" → line ≠ "---SPLITTER---" →
      matchNumberedLine line = none → st.current_num = some m →
      parseLine st line
        = { st with current_translation := st.current_translation ++ [line] })
  ∧ parse_ai_response "1. 你好\n---SPLITTER---\n2. 世界\n---SPLITTER---\n"
      = [(0, "你好"), (1, "世界")] := by
  refine ⟨?_, ?_, ?_, by decide⟩
  · intro st n t ts hnum htr
    have e1 : pyStrip "---SPLITTER---" = "---SPLITTER---" := by decide
    have e2 : ("---SPLITTER---" : String).isEmpty = false := by decide
    simp only [parseLine, e1, e2, Bool.false_eq_true, if_neg, if_false, beq_self_eq_true,
      if_pos, if_true, hnum, htr]
  · intro st line n g2 h1 h2 h3 h4
    have e2 : line.isEmpty = false := by
      cases he : line.isEmpty
      · rfl
      · exact absurd ((String.isEmpty_iff line).1 he) h2
    have e3 : (line == "---SPLITTER---") = false := by simpa using h3
    simp only [parseLine, h1, e2, e3, Bool.false_eq_true, if_neg, if_false, h4]
  · intro st line m h1 h2 h3 h4 h5
    have e2 : line.isEmpty = false := by
      cases he : line.isEmpty
      · rfl
      · exact absurd ((String.isEmpty_iff line).1 he) h2
    have e3 : (line == "---SPLITTER---") = false := by simpa using h3
    simp only [parseLine, h1, e2, e3, Bool.false_eq_true, if_neg, if_false, h4, h5]

/-- Witness for C2: the sentinel clause applied at a concrete open
entry. -/
theorem C2_witness :
    parseLine ⟨some 0, ["x"], []⟩ "---SPLITTER---"
      = { current_num := none, current_translation := [],
          api_translations := dictInsert [] 0 (joinStrip ["x"]) } :=
  C2_numbered_parse.1 ⟨some 0, ["x"], []⟩ 0 "x" [] rfl rfl

/-- C8: with glossary `{HP: 生命值}` and an empty blacklist, terminology
pre-substitution turns `"Max HP: 100"` into `"Max 生命值: 100"` (and
reports a replacement); and when the backend fails on every call, the
whole `modify` pipeline still returns, writing exactly that
pre-substituted text back into the extracted field. -/
theorem C8_round_trip :
    apply_terminology [("HP", "生命值")] "Max HP: 100" = ("Max 生命值: 100", true)
  ∧ LCLT.modify [⟨some "default", some 999, [], none, some "deepseek", some "prompt.txt"⟩]
      [] [] [("HP", "生命值")] 2200 (fun _ _ => none)
      [⟨"Test.json", "Test.json", some (Json.obj [("dataList", Json.arr
        [Json.obj [("id", Json.num 1), ("content", Json.str "Max HP: 100")]])])⟩]
    = some [⟨"Test.json", "Test.json", some (Json.obj [("dataList", Json.arr
        [Json.obj [("id", Json.num 1), ("content", Json.str "Max 生命值: 100")]])])⟩] :=
  ⟨by decide, by decide⟩

theorem mem_insertByPriority (x y : Strategy) (l : List Strategy) :
    y ∈ insertByPriority x l ↔ y = x ∨ y ∈ l := by
  induction l with
  | nil => simp [insertByPriority]
  | cons z rest ih =>
    by_cases h : strategyPriority z < strategyPriority x
    · simp only [insertByPriority, h, if_pos, List.mem_cons, ih]
      tauto
    · simp only [insertByPriority, h, if_neg, if_false, List.mem_cons]

theorem mem_sortStrategies (x : Strategy) (l : List Strategy) :
    x ∈ sortStrategies l ↔ x ∈ l := by
  induction l with
  | nil => simp [sortStrategies]
  | cons y rest ih =>
    simp only [sortStrategies, List.foldr_cons] at *
    rw [mem_insertByPriority, ih]
    exact List.mem_cons.symm

theorem pairwise_insertByPriority (x : Strategy) (l : List Strategy)
    (h : l.Pairwise (fun a b => strategyPriority a ≤ strategyPriority b)) :
    (insertByPriority x l).Pairwise (fun a b => strategyPriority a ≤ strategyPriority b) := by
  induction l with
  | nil => simp [insertByPriority]
  | cons z rest ih =>
    rcases List.pairwise_cons.1 h with ⟨hz, hrest⟩
    by_cases hle : strategyPriority z < strategyPriority x
    · simp only [insertByPriority, hle, if_pos]
      refine List.pairwise_cons.2 ⟨?_, ih hrest⟩
      intro b hb
      rcases (mem_insertByPriority x b rest).1 hb with he | hm
      · subst he; exact le_of_lt hle
      · exact hz b hm
    · simp only [insertByPriority, hle, if_neg, if_false]
      refine List.pairwise_cons.2 ⟨?_, h⟩
      intro b hb
      rcases List.mem_cons.1 hb with he | hm
      · subst he; exact not_lt.1 hle
      · exact le_trans (not_lt.1 hle) (hz b hm)

theorem pairwise_sortStrategies (l : List Strategy) :
    (sortStrategies l).Pairwise (fun a b => strategyPriority a ≤ strategyPriority b) := by
  induction l with
  | nil => simp [sortStrategies]
  | cons y rest ih =>
    simp only [sortStrategies, List.foldr_cons] at *
    exact pairwise_insertByPriority y _ ih

theorem matchStrategy_mem_shape (fp fn : String) (s x : Strategy)
    (hx : x ∈ matchStrategy fp fn s) :
    ∃ pc ∈ s.file_patterns,
      x = { s with extract_fields := match pc.extract_fields with
            | some v => some v | none => s.extract_fields } := by
  simp only [matchStrategy, List.mem_filterMap] at hx
  obtain ⟨pc, hpc, heq⟩ := hx
  refine ⟨pc, hpc, ?_⟩
  by_cases h1 : fnmatch fp pc.pattern = true
  · simp only [h1, if_pos] at heq
    exact (Option.some_inj.1 heq).symm
  · simp only [h1, Bool.false_eq_true, if_neg, if_false] at heq
    by_cases h2 : fnmatch fn pc.pattern = true
    · simp only [h2, if_pos] at heq
      exact (Option.some_inj.1 heq).symm
    · simp [h1, h2] at heq

theorem matchStrategy_priority (fp fn : String) (s x : Strategy)
    (hx : x ∈ matchStrategy fp fn s) : strategyPriority x = strategyPriority s := by
  obtain ⟨pc, _, he⟩ := matchStrategy_mem_shape fp fn s x hx
  subst he
  rfl

theorem mem_matchStrategy (fp fn : String) (s : Strategy) (pc : PatternConfig)
    (hpc : pc ∈ s.file_patterns)
    (hm : (fnmatch fp pc.pattern || fnmatch fn pc.pattern) = true) :
    ({ s with extract_fields := match pc.extract_fields with
        | some v => some v | none => s.extract_fields } : Strategy)
      ∈ matchStrategy fp fn s := by
  simp only [matchStrategy, List.mem_filterMap]
  refine ⟨pc, hpc, ?_⟩
  by_cases h1 : fnmatch fp pc.pattern = true
  · simp [h1]
  · have h2 : fnmatch fn pc.pattern = true := by
      rcases Bool.or_eq_true_iff.1 hm with h | h
      · exact absurd h h1
      · exact h
    simp [h1, h2]

theorem matchStrategy_nil (fp fn : String) (s : Strategy)
    (h : ∀ pc ∈ s.file_patterns,
      fnmatch fp pc.pattern = false ∧ fnmatch fn pc.pattern = false) :
    matchStrategy fp fn s = [] := by
  rw [matchStrategy, List.filterMap_eq_nil_iff]
  intro pc hpc
  simp [(h pc hpc).1, (h pc hpc).2]

theorem pairwise_matching (strategies : List Strategy) (fp fn : String) :
    ((sortStrategies strategies).map (matchStrategy fp fn)).flatten.Pairwise
      (fun a b => strategyPriority a ≤ strategyPriority b) := by
  rw [List.pairwise_flatten]
  refine ⟨?_, ?_⟩
  · intro l hl
    obtain ⟨s, _, rfl⟩ := List.mem_map.1 hl
    refine List.pairwise_of_forall_mem_list ?_
    intro a ha b hb
    rw [matchStrategy_priority fp fn s a ha, matchStrategy_priority fp fn s b hb]
  · rw [List.pairwise_map]
    refine (pairwise_sortStrategies strategies).imp ?_
    intro a b hab x hx y hy
    rw [matchStrategy_priority fp fn a x hx, matchStrategy_priority fp fn b y hy]
    exact hab

/-- C9 counterexample: a policy whose two file patterns both match yields
two entries in the resolution result (one per matching pattern), not one
entry per matching policy; and when nothing matches and no policy is
named "default", the result is silently the empty list — no configuration
error is surfaced. -/
theorem C9_counterexample :
    (get_strategies_for_file
        [⟨some "p", some 1, [⟨"*", none⟩, ⟨"*", none⟩], none, none, none⟩]
        "a.json").length = 2
  ∧ ([(⟨some "p", some 1, [⟨"*", none⟩, ⟨"*", none⟩], none, none, none⟩ : Strategy)]).length
      = 1
  ∧ get_strategies_for_file
      [⟨some "p", some 1, [⟨"zzz*", none⟩], none, none, none⟩] "b.json" = [] := by
  exact ⟨by decide, rfl, by decide⟩

/-- C9 amended: strategy resolution returns its matches in ascending
priority order, with one entry per (policy, matching file-pattern) pair —
each carrying `extract_fields` from the matching pattern entry or the
policy's own default — where a pattern matches the full path or the bare
filename; when no pattern matches, the result is the singleton first
policy named "default" if one exists, and otherwise the empty list (the
missing default is not surfaced as an error). -/
theorem C9_strategy_resolution (strategies : List Strategy) (file_path : String) :
    (get_strategies_for_file strategies file_path).Pairwise
      (fun a b => strategyPriority a ≤ strategyPriority b)
  ∧ (∀ s ∈ strategies, ∀ pc ∈ s.file_patterns,
      (fnmatch file_path pc.pattern || fnmatch (basename file_path) pc.pattern) = true →
      ({ s with extract_fields := match pc.extract_fields with
          | some v => some v | none => s.extract_fields } : Strategy)
        ∈ get_strategies_for_file strategies file_path)
  ∧ ((∀ s ∈ strategies, ∀ pc ∈ s.file_patterns,
        fnmatch file_path pc.pattern = false ∧
        fnmatch (basename file_path) pc.pattern = false) →
      get_strategies_for_file strategies file_path =
        (match (sortStrategies strategies).find? (fun s => s.name == some "default") with
         | some d => [d]
         | none => [])) := by
  refine ⟨?_, ?_, ?_⟩
  · simp only [get_strategies_for_file]
    cases hm : ((sortStrategies strategies).map
        (matchStrategy file_path (basename file_path))).flatten.isEmpty
    · simpa [hm] using pairwise_matching strategies file_path (basename file_path)
    · simp only [hm, if_pos]
      cases (sortStrategies strategies).find? (fun s => s.name == some "default") with
      | none => simp
      | some d => simp
  · intro s hs pc hpc hmatch
    have hmem : ({ s with extract_fields := match pc.extract_fields with
        | some v => some v | none => s.extract_fields } : Strategy)
        ∈ ((sortStrategies strategies).map
            (matchStrategy file_path (basename file_path))).flatten := by
      refine List.mem_flatten.2 ⟨matchStrategy file_path (basename file_path) s, ?_, ?_⟩
      · exact List.mem_map_of_mem _ ((mem_sortStrategies s strategies).2 hs)
      · exact mem_matchStrategy file_path (basename file_path) s pc hpc hmatch
    have hne : (((sortStrategies strategies).map
        (matchStrategy file_path (basename file_path))).flatten).isEmpty = false := by
      cases he : (((sortStrategies strategies).map
          (matchStrategy file_path (basename file_path))).flatten).isEmpty
      · rfl
      · rw [List.isEmpty_iff] at he
        rw [he] at hmem
        simp at hmem
    simp only [get_strategies_for_file, hne, Bool.false_eq_true, if_neg, if_false]
    exact hmem
  · intro hall
    have hnil : ((sortStrategies strategies).map
        (matchStrategy file_path (basename file_path))).flatten = [] := by
      rw [List.flatten_eq_nil_iff]
      intro l hl
      obtain ⟨s, hs, rfl⟩ := List.mem_map.1 hl
      exact matchStrategy_nil file_path (basename file_path) s
        (hall s ((mem_sortStrategies s strategies).1 hs))
    simp only [get_strategies_for_file, hnil, List.isEmpty_nil, if_pos]

/-- Witness for C9: a policy with pattern `*` matching `a.json` appears in
the resolution result. -/
theorem C9_witness :
    (⟨some "p", some 1, [⟨"*", none⟩], none, none, none⟩ : Strategy)
      ∈ get_strategies_for_file
          [⟨some "p", some 1, [⟨"*", none⟩], none, none, none⟩] "a.json" :=
  (C9_strategy_resolution [⟨some "p", some 1, [⟨"*", none⟩], none, none, none⟩]
      "a.json").2.1
    ⟨some "p", some 1, [⟨"*", none⟩], none, none, none⟩ (by simp)
    ⟨"*", none⟩ (by simp) (by decide)

theorem isEmpty_false_of_ne {s : String} (h : s ≠ "") : s.isEmpty = false := by
  cases he : s.isEmpty
  · rfl
  · exact absurd ((String.isEmpty_iff s).1 he) h

theorem needApi_all (g : StrategyGroup) (hg : ∀ t ∈ g.tasks, t.text ≠ "") :
    needApiIndices g = List.range (groupTexts g).length := by
  unfold needApiIndices
  apply List.filter_eq_self.2
  intro i hi
  rw [List.mem_range] at hi
  have hlen : i < (groupFlags g).length := by
    simpa [groupFlags, groupTexts] using hi
  have hilen : i < g.tasks.length := by simpa [groupTexts] using hi
  rw [List.getD_eq_getElem _ _ hlen]
  simp only [groupFlags, groupTexts, List.map_map, List.getElem_map, Function.comp]
  have hmem : g.tasks[i] ∈ g.tasks := List.getElem_mem hilen
  simp [isEmpty_false_of_ne (hg _ hmem)]

theorem process_batch_fail (batch_indices : List Nat) (pre : List String)
    (flags : List Bool) :
    process_batch batch_indices pre flags (fun _ => none)
      = (batch_indices.map (fun idx => (idx, pre.getD idx "")), false) := rfl

theorem range_map_getD {α β γ : Type} (l : List α) (f : α → β) (g : α → γ)
    (d1 : β) (d2 : γ) :
    (List.range l.length).map (fun k => ((l.map f).getD k d1, (l.map g).getD k d2))
      = l.map (fun a => (f a, g a)) := by
  induction l with
  | nil => simp
  | cons a rest ih =>
    simp only [List.length_cons, List.range_succ_eq_map, List.map_cons, List.map_map]
    have hhead : ((f a :: rest.map f).getD 0 d1, (g a :: rest.map g).getD 0 d2)
        = (f a, g a) := rfl
    have hcomp : ((fun k => ((f a :: rest.map f).getD k d1, (g a :: rest.map g).getD k d2))
          ∘ Nat.succ)
        = fun k => ((rest.map f).getD k d1, (rest.map g).getD k d2) := by
      funext k
      rfl
    rw [hhead, hcomp, ih]

theorem processGroup_fail (T : List (String × String)) (maxc : Nat)
    (g : StrategyGroup) (hg : ∀ t ∈ g.tasks, t.text ≠ "") :
    processGroup T maxc (fun _ _ => none) g
      = g.tasks.map (fun t => (t.index, preTranslate T t.text)) := by
  simp only [processGroup, needApi_all g hg]
  cases htasks : g.tasks with
  | nil =>
    simp [groupTexts, htasks]
  | cons t0 rest =>
    have hne2 : (List.range (groupTexts g).length).isEmpty = false := by
      simp [groupTexts, htasks]
    rw [hne2]
    simp only [Bool.false_eq_true, if_neg, if_false]
    have hbatch : ∀ b : List Nat,
        (process_batch b (groupPre T g) (groupFlags g) ((fun (_ : StrategyKey)
            (_ : String) => none) g.key)).1.map
          (fun p => ((groupIndices g).getD p.1 0, p.2))
        = b.map (fun idx =>
            ((groupIndices g).getD idx 0, (groupPre T g).getD idx "")) := by
      intro b
      rw [process_batch_fail]
      rw [List.map_map]
      rfl
    rw [List.map_congr_left (fun b _ => hbatch b)]
    rw [← List.map_flatten]
    rw [show (create_batches_for_api_texts (List.range (groupTexts g).length)
        (groupPre T g) maxc).flatten = List.range (groupTexts g).length from
      batchAux_flatten (groupPre T g) maxc (List.range (groupTexts g).length) [] 0]
    have hlen : (groupTexts g).length = g.tasks.length := by
      simp [groupTexts]
    rw [hlen]
    have hidx : groupIndices g = g.tasks.map (fun t => t.index) := rfl
    have hpre : groupPre T g = g.tasks.map (fun t => preTranslate T t.text) := by
      simp [groupPre, groupTexts, List.map_map]
    rw [hidx, hpre, ← htasks]
    exact range_map_getD g.tasks (fun t => t.index) (fun t => preTranslate T t.text) 0 ""

theorem mem_of_mem_group (tasks : List TranslationTask) (g : StrategyGroup)
    (hg : g ∈ strategy_groups tasks) (t : TranslationTask) (ht : t ∈ g.tasks) :
    t ∈ tasks := by
  have hmem : t ∈ groupsTasks (strategy_groups tasks) :=
    List.mem_flatten.2 ⟨g.tasks, List.mem_map_of_mem _ hg, ht⟩
  exact ((strategy_groups_perm tasks).mem_iff).1 hmem

theorem batch_translate_fail (T : List (String × String)) (maxc : Nat)
    (tasks : List TranslationTask)
    (hne : ∀ t ∈ tasks, t.text ≠ "")
    (hnd : (tasks.map (fun t => t.index)).Nodup) :
    ∀ t ∈ tasks,
      dictLookup
          (batch_translate_with_multiple_strategies T maxc (fun _ _ => none) tasks)
          t.index
        = some (preTranslate T t.text) := by
  intro t ht
  have htasksne : tasks.isEmpty = false := by
    cases he : tasks.isEmpty
    · rfl
    · rw [List.isEmpty_iff] at he; subst he; simp at ht
  have hA : ((strategy_groups tasks).map
        (processGroup T maxc (fun _ _ => none))).flatten
      = (groupsTasks (strategy_groups tasks)).map
          (fun t => (t.index, preTranslate T t.text)) := by
    rw [groupsTasks, List.map_flatten, List.map_map]
    congr 1
    apply List.map_congr_left
    intro g hg
    exact processGroup_fail T maxc g
      (fun t2 ht2 => hne t2 (mem_of_mem_group tasks g hg t2 ht2))
  have hperm : List.Perm
      ((groupsTasks (strategy_groups tasks)).map (fun t => (t.index, preTranslate T t.text)))
      (tasks.map (fun t => (t.index, preTranslate T t.text))) :=
    (strategy_groups_perm tasks).map _
  have hkeys : ((((strategy_groups tasks).map
      (processGroup T maxc (fun _ _ => none))).flatten).map Prod.fst).Nodup := by
    rw [hA]
    refine (List.Perm.nodup_iff (hperm.map Prod.fst)).2 ?_
    simpa [List.map_map, Function.comp] using hnd
  have hmem : (t.index, preTranslate T t.text)
      ∈ ((strategy_groups tasks).map (processGroup T maxc (fun _ _ => none))).flatten := by
    rw [hA]
    exact hperm.symm.subset (List.mem_map_of_mem _ ht)
  unfold batch_translate_with_multiple_strategies
  rw [htasksne]
  simp only [Bool.false_eq_true, if_neg, if_false]
  exact dictLookup_foldl_insert _ [] t.index (preTranslate T t.text) hkeys hmem

/-- C3 counterexample: with glossary `{HP: 生命值}` and a backend that fails
every attempt, the failed batch resolves the task to the
terminology-substituted text `"Max 生命值: 100"`, not to the text before
terminology substitution (`"Max HP: 100"`) as the claim states. -/
theorem C3_counterexample :
    dictLookup (batch_translate_with_multiple_strategies [("HP", "生命值")] 2200
        (fun _ _ => none) [⟨"Max HP: 100", ⟨"", "", "m", 1, false, "p"⟩, 0⟩]) 0
      = some "Max 生命值: 100"
  ∧ ("Max 生命值: 100" : String) ≠ "Max HP: 100" :=
  ⟨by decide, by decide⟩

/-- C3 amended: when the backend fails on every attempt, `process_batch`
returns (instead of raising) a map sending every batch index to its
pre-translated — i.e. terminology-pre-substituted — text together with
`success = false`; and the whole dispatcher then terminates with a total
result map in which every task (non-empty texts, distinct indices)
resolves to its terminology-substituted text.  Failure is contained: the
pipeline returns normally. -/
theorem C3_batch_fallback (T : List (String × String)) (maxc : Nat)
    (tasks : List TranslationTask)
    (hne : ∀ t ∈ tasks, t.text ≠ "")
    (hnd : (tasks.map (fun t => t.index)).Nodup) :
    (∀ (batch_indices : List Nat) (pre : List String) (flags : List Bool),
      process_batch batch_indices pre flags (fun _ => none)
        = (batch_indices.map (fun idx => (idx, pre.getD idx "")), false))
  ∧ (∀ t ∈ tasks,
      dictLookup
          (batch_translate_with_multiple_strategies T maxc (fun _ _ => none) tasks)
          t.index
        = some ((apply_terminology T t.text).1)) := by
  refine ⟨fun _ _ _ => rfl, ?_⟩
  intro t ht
  rw [batch_translate_fail T maxc tasks hne hnd t ht]
  unfold preTranslate
  rw [isEmpty_false_of_ne (hne t ht)]
  simp

/-- Witness for C3 at one concrete task with an empty glossary. -/
theorem C3_witness :
    dictLookup (batch_translate_with_multiple_strategies [] 2200 (fun _ _ => none)
        [⟨"hello", ⟨"", "", "m", 1, false, "p"⟩, 0⟩]) 0
      = some ((apply_terminology [] "hello").1) :=
  (C3_batch_fallback [] 2200 [⟨"hello", ⟨"", "", "m", 1, false, "p"⟩, 0⟩]
      (by decide) (by decide)).2 ⟨"hello", ⟨"", "", "m", 1, false, "p"⟩, 0⟩ (by simp)

theorem posExt_refl (st : CollectState) : PosExt st st := ⟨[], by simp⟩

theorem posExt_trans {a b c : CollectState} (h1 : PosExt a b) (h2 : PosExt b c) :
    PosExt a c := by
  obtain ⟨d1, hd1⟩ := h1
  obtain ⟨d2, hd2⟩ := h2
  exact ⟨d1 ++ d2, by rw [hd2, hd1, List.append_assoc]⟩

theorem posExt_mem {st st2 : CollectState} (h : PosExt st st2)
    {x : Nat × List PathKey} (hx : x ∈ st.task_positions) : x ∈ st2.task_positions := by
  obtain ⟨d, hd⟩ := h
  rw [hd]
  exact List.mem_append_left _ hx

theorem collectInv_addExtractedTask (models : List (String × ModelConfig)) (i : Nat)
    (strat : Strategy) (st : CollectState) (pr : List PathKey × String)
    (h : CollectInv st) : CollectInv (addExtractedTask models i strat st pr) := by
  unfold addExtractedTask
  by_cases hc : st.processed_fields.contains (i, pr.1) = true
  · rw [if_pos hc]; exact h
  · rw [if_neg hc]
    obtain ⟨h1, h2, h3⟩ := h
    have hnotmem : (i, pr.1) ∉ st.task_positions := by
      rw [← h1]
      simpa using hc
    refine ⟨by rw [h1], ?_, by simp [h3]⟩
    rw [List.nodup_append]
    refine ⟨h2, List.nodup_singleton _, ?_⟩
    intro a ha hb
    rw [List.mem_singleton.1 hb] at ha
    exact hnotmem ha

theorem posExt_addExtractedTask (models : List (String × ModelConfig)) (i : Nat)
    (strat : Strategy) (st : CollectState) (pr : List PathKey × String) :
    PosExt st (addExtractedTask models i strat st pr) := by
  unfold addExtractedTask
  by_cases hc : st.processed_fields.contains (i, pr.1) = true
  · rw [if_pos hc]; exact posExt_refl st
  · rw [if_neg hc]; exact ⟨[(i, pr.1)], rfl⟩

theorem foldl_collectInv {α : Type} (f : CollectState → α → CollectState)
    (hf : ∀ st a, CollectInv st → CollectInv (f st a)) :
    ∀ (l : List α) (st : CollectState), CollectInv st → CollectInv (l.foldl f st) := by
  intro l
  induction l with
  | nil => intro st h; exact h
  | cons a rest ih => intro st h; exact ih (f st a) (hf st a h)

theorem foldl_posExt {α : Type} (f : CollectState → α → CollectState)
    (hf : ∀ st a, PosExt st (f st a)) :
    ∀ (l : List α) (st : CollectState), PosExt st (l.foldl f st) := by
  intro l
  induction l with
  | nil => intro st; exact posExt_refl st
  | cons a rest ih => intro st; exact posExt_trans (hf st a) (ih (f st a))

theorem collectInv_collectItem (models : List (String × ModelConfig))
    (blacklist : List String) (i j : Nat) (strategies : List Strategy) (item : Json)
    (st : CollectState) (h : CollectInv st) :
    CollectInv (collectItem models blacklist i j strategies item st) := by
  unfold collectItem
  refine foldl_collectInv _ ?_ strategies st h
  intro st2 strat h2
  exact foldl_collectInv _ (collectInv_addExtractedTask models i strat) _ st2 h2

theorem posExt_collectItem (models : List (String × ModelConfig))
    (blacklist : List String) (i j : Nat) (strategies : List Strategy) (item : Json)
    (st : CollectState) :
    PosExt st (collectItem models blacklist i j strategies item st) := by
  unfold collectItem
  refine foldl_posExt _ ?_ strategies st
  intro st2 strat
  exact foldl_posExt _ (posExt_addExtractedTask models i strat) _ st2

theorem collectInv_collectItems (models : List (String × ModelConfig))
    (blacklist : List String) (i : Nat) (strategies : List Strategy) :
    ∀ (dl : List Json) (j : Nat) (st : CollectState), CollectInv st →
      CollectInv (collectItems models blacklist i strategies dl j st) := by
  intro dl
  induction dl with
  | nil => intro j st h; exact h
  | cons it rest ih =>
    intro j st h
    exact ih (j + 1) _ (collectInv_collectItem models blacklist i j strategies it st h)

theorem posExt_collectItems (models : List (String × ModelConfig))
    (blacklist : List String) (i : Nat) (strategies : List Strategy) :
    ∀ (dl : List Json) (j : Nat) (st : CollectState),
      PosExt st (collectItems models blacklist i strategies dl j st) := by
  intro dl
  induction dl with
  | nil => intro j st; exact posExt_refl st
  | cons it rest ih =>
    intro j st
    exact posExt_trans (posExt_collectItem models blacklist i j strategies it st)
      (ih (j + 1) _)

theorem collectInv_collectFile (cfg : List Strategy)
    (models : List (String × ModelConfig)) (blacklist : List String) (i : Nat)
    (file : DeltaRecord) (st : CollectState) (h : CollectInv st) :
    CollectInv (collectFile cfg models blacklist i file st) := by
  unfold collectFile
  split
  all_goals try exact h
  split
  all_goals try exact h
  exact collectInv_collectItems models blacklist i _ _ 0 st h

theorem posExt_collectFile (cfg : List Strategy)
    (models : List (String × ModelConfig)) (blacklist : List String) (i : Nat)
    (file : DeltaRecord) (st : CollectState) :
    PosExt st (collectFile cfg models blacklist i file st) := by
  unfold collectFile
  split
  all_goals try exact posExt_refl st
  split
  all_goals try exact posExt_refl st
  exact posExt_collectItems models blacklist i _ _ 0 st

theorem collectInv_collectFiles (cfg : List Strategy)
    (models : List (String × ModelConfig)) (blacklist : List String) :
    ∀ (files : List DeltaRecord) (i : Nat) (st : CollectState), CollectInv st →
      CollectInv (collectFiles cfg models blacklist files i st) := by
  intro files
  induction files with
  | nil => intro i st h; exact h
  | cons f rest ih =>
    intro i st h
    exact ih (i + 1) _ (collectInv_collectFile cfg models blacklist i f st h)

theorem posExt_collectFiles (cfg : List Strategy)
    (models : List (String × ModelConfig)) (blacklist : List String) :
    ∀ (files : List DeltaRecord) (i : Nat) (st : CollectState),
      PosExt st (collectFiles cfg models blacklist files i st) := by
  intro files
  induction files with
  | nil => intro i st; exact posExt_refl st
  | cons f rest ih =>
    intro i st
    exact posExt_trans (posExt_collectFile cfg models blacklist i f st) (ih (i + 1) _)

theorem coverage_extracted (models : List (String × ModelConfig)) (i : Nat)
    (strat : Strategy) :
    ∀ (l : List (List PathKey × String)) (st : CollectState), CollectInv st →
      ∀ pr ∈ l,
        (i, pr.1) ∈ (l.foldl (addExtractedTask models i strat) st).task_positions := by
  intro l
  induction l with
  | nil => intro st _ pr hpr; simp at hpr
  | cons q rest ih =>
    intro st hinv pr hpr
    simp only [List.foldl_cons]
    rcases List.mem_cons.1 hpr with he | hr
    · subst he
      have hstep : (i, pr.1) ∈ (addExtractedTask models i strat st pr).task_positions := by
        unfold addExtractedTask
        by_cases hc : st.processed_fields.contains (i, pr.1) = true
        · rw [if_pos hc]
          have hm : (i, pr.1) ∈ st.processed_fields := by simpa using hc
          rw [hinv.1] at hm
          exact hm
        · rw [if_neg hc]
          simp
      exact posExt_mem
        (foldl_posExt _ (posExt_addExtractedTask models i strat) rest _) hstep
    · exact ih (addExtractedTask models i strat st q)
        (collectInv_addExtractedTask models i strat st q hinv) pr hr

theorem coverage_item (models : List (String × ModelConfig)) (blacklist : List String)
    (i j : Nat) (item : Json) :
    ∀ (strategies : List Strategy) (st : CollectState), CollectInv st →
      ∀ strat ∈ strategies,
      ∀ pr ∈ extract_text_recursive item blacklist [PathKey.idx j] strat.extract_fields,
        (i, pr.1) ∈ (collectItem models blacklist i j strategies item st).task_positions := by
  intro strategies
  induction strategies with
  | nil => intro st _ strat hs; simp at hs
  | cons s0 rest ih =>
    intro st hinv strat hs pr hpr
    have hunf : collectItem models blacklist i j (s0 :: rest) item st
        = collectItem models blacklist i j rest item
            ((extract_text_recursive item blacklist [PathKey.idx j]
                s0.extract_fields).foldl (addExtractedTask models i s0) st) := by
      simp [collectItem, List.foldl_cons]
    rw [hunf]
    rcases List.mem_cons.1 hs with he | hrest
    · subst he
      have h1 := coverage_extracted models i strat _ st hinv pr hpr
      exact posExt_mem (posExt_collectItem models blacklist i j rest item _) h1
    · exact ih _
        (foldl_collectInv _ (collectInv_addExtractedTask models i s0) _ st hinv)
        strat hrest pr hpr

theorem coverage_items (models : List (String × ModelConfig)) (blacklist : List String)
    (i : Nat) (strategies : List Strategy) :
    ∀ (dl : List Json) (j0 : Nat) (st : CollectState), CollectInv st →
      ∀ (jj : Nat) (item : Json), dl[jj]? = some item →
      ∀ strat ∈ strategies,
      ∀ pr ∈ extract_text_recursive item blacklist [PathKey.idx (j0 + jj)]
          strat.extract_fields,
        (i, pr.1)
          ∈ (collectItems models blacklist i strategies dl j0 st).task_positions := by
  intro dl
  induction dl with
  | nil => intro j0 st _ jj item h; simp at h
  | cons it0 rest ih =>
    intro j0 st hinv jj item hjj strat hs pr hpr
    simp only [collectItems]
    cases jj with
    | zero =>
      have heq : it0 = item := by simpa using hjj
      subst heq
      rw [Nat.add_zero] at hpr
      have h1 := coverage_item models blacklist i j0 it0 strategies st hinv strat hs pr hpr
      exact posExt_mem (posExt_collectItems models blacklist i strategies rest (j0 + 1) _) h1
    | succ n =>
      have hr : rest[n]? = some item := by simpa using hjj
      rw [show j0 + (n + 1) = (j0 + 1) + n from by omega] at hpr
      exact ih (j0 + 1) _
        (collectInv_collectItem models blacklist i j0 strategies it0 st hinv)
        n item hr strat hs pr hpr

theorem coverage_file (cfg : List Strategy) (models : List (String × ModelConfig))
    (blacklist : List String) (i : Nat) (file : DeltaRecord) (st : CollectState)
    (hinv : CollectInv st) (fs : List (String × Json)) (dl : List Json)
    (hc : file.content = some (Json.obj fs))
    (hdl : dictLookup fs "dataList" = some (Json.arr dl)) :
    ∀ (j : Nat) (item : Json), dl[j]? = some item →
    ∀ strat ∈ get_strategies_for_file cfg file.rel_path,
    ∀ pr ∈ extract_text_recursive item blacklist [PathKey.idx j] strat.extract_fields,
      (i, pr.1) ∈ (collectFile cfg models blacklist i file st).task_positions := by
  intro j item hj strat hs pr hpr
  unfold collectFile
  simp only [hc, hdl]
  have hpr2 : pr ∈ extract_text_recursive item blacklist [PathKey.idx (0 + j)]
      strat.extract_fields := by
    rw [Nat.zero_add]
    exact hpr
  exact coverage_items models blacklist i _ dl 0 st hinv j item hj strat hs pr hpr2

theorem coverage_files (cfg : List Strategy) (models : List (String × ModelConfig))
    (blacklist : List String) :
    ∀ (files : List DeltaRecord) (i0 : Nat) (st : CollectState), CollectInv st →
      ∀ (i : Nat) (f : DeltaRecord), files[i]? = some f →
      ∀ (fs : List (String × Json)) (dl : List Json),
        f.content = some (Json.obj fs) →
        dictLookup fs "dataList" = some (Json.arr dl) →
      ∀ (j : Nat) (item : Json), dl[j]? = some item →
      ∀ strat ∈ get_strategies_for_file cfg f.rel_path,
      ∀ pr ∈ extract_text_recursive item blacklist [PathKey.idx j] strat.extract_fields,
        (i0 + i, pr.1)
          ∈ (collectFiles cfg models blacklist files i0 st).task_positions := by
  intro files
  induction files with
  | nil => intro i0 st _ i f h; simp at h
  | cons f0 rest ih =>
    intro i0 st hinv i f hif fs dl hc hdl j item hj strat hs pr hpr
    simp only [collectFiles]
    cases i with
    | zero =>
      have heq : f0 = f := by simpa using hif
      subst heq
      rw [Nat.add_zero]
      have h1 := coverage_file cfg models blacklist i0 f0 st hinv fs dl hc hdl
        j item hj strat hs pr hpr
      exact posExt_mem (posExt_collectFiles cfg models blacklist rest (i0 + 1) _) h1
    | succ n =>
      have hr : rest[n]? = some f := by simpa using hif
      rw [show i0 + (n + 1) = (i0 + 1) + n from by omega]
      exact ih (i0 + 1) _ (collectInv_collectFile cfg models blacklist i0 f0 st hinv)
        n f hr fs dl hc hdl j item hj strat hs pr hpr

/-- C6: in the task-collection phase of `modify`, the claimed positions
are duplicate-free and in bijection with the emitted tasks (so no `(file
index, field path)` pair becomes two translation tasks, even under
overlapping policies), and every field extracted by any matching policy
is claimed (so each extracted pair appears in exactly one task). -/
theorem C6_field_exclusivity (cfg : List Strategy) (models : List (String × ModelConfig))
    (blacklist : List String) (files : List DeltaRecord) :
    (collect_tasks cfg models blacklist files).task_positions.Nodup
  ∧ (collect_tasks cfg models blacklist files).all_translation_tasks.length
      = (collect_tasks cfg models blacklist files).task_positions.length
  ∧ (∀ (i : Nat) (f : DeltaRecord), files[i]? = some f →
      ∀ (fs : List (String × Json)) (dl : List Json),
        f.content = some (Json.obj fs) →
        dictLookup fs "dataList" = some (Json.arr dl) →
      ∀ (j : Nat) (item : Json), dl[j]? = some item →
      ∀ strat ∈ get_strategies_for_file cfg f.rel_path,
      ∀ pr ∈ extract_text_recursive item blacklist [PathKey.idx j] strat.extract_fields,
        (i, pr.1) ∈ (collect_tasks cfg models blacklist files).task_positions) := by
  have hinv0 : CollectInv ⟨[], [], []⟩ := ⟨rfl, List.nodup_nil, rfl⟩
  have hinv := collectInv_collectFiles cfg models blacklist files 0 ⟨[], [], []⟩ hinv0
  refine ⟨hinv.2.1, hinv.2.2, ?_⟩
  intro i f hif fs dl hc hdl j item hj strat hs pr hpr
  have h := coverage_files cfg models blacklist files 0 ⟨[], [], []⟩ hinv0 i f hif
    fs dl hc hdl j item hj strat hs pr hpr
  rw [Nat.zero_add] at h
  exact h

/-- Witness for C6: the concrete delta file's `content` field is claimed
exactly once, at position `(0, [0, "content"])`. -/
theorem C6_witness :
    (0, [PathKey.idx 0, PathKey.key "content"])
      ∈ (collect_tasks
          [⟨some "default", some 999, [], none, some "deepseek", some "prompt.txt"⟩]
          [] []
          [⟨"Test.json", "Test.json", some (Json.obj [("dataList", Json.arr
            [Json.obj [("id", Json.num 1),
              ("content", Json.str "Max HP: 100")]])])⟩]).task_positions :=
  (C6_field_exclusivity
      [⟨some "default", some 999, [], none, some "deepseek", some "prompt.txt"⟩]
      [] []
      [⟨"Test.json", "Test.json", some (Json.obj [("dataList", Json.arr
        [Json.obj [("id", Json.num 1), ("content", Json.str "Max HP: 100")]])])⟩]).2.2
    0
    ⟨"Test.json", "Test.json", some (Json.obj [("dataList", Json.arr
      [Json.obj [("id", Json.num 1), ("content", Json.str "Max HP: 100")]])])⟩
    rfl
    [("dataList", Json.arr
      [Json.obj [("id", Json.num 1), ("content", Json.str "Max HP: 100")]])]
    [Json.obj [("id", Json.num 1), ("content", Json.str "Max HP: 100")]]
    rfl (by decide)
    0 (Json.obj [("id", Json.num 1), ("content", Json.str "Max HP: 100")]) rfl
    ⟨some "default", some 999, [], none, some "deepseek", some "prompt.txt"⟩ (by decide)
    ([PathKey.idx 0, PathKey.key "content"], "Max HP: 100") (by decide)
